import Mathlib

/-!
Verification development for the rpatchur repository (gruf archive library and
patch orchestrator).  The Rust sources are shallowly embedded: machine
integers become `Nat` (with explicit `% 2 ^ 64` where Rust wrapping semantics
matter), `BTreeMap` / `BTreeSet` become sorted association lists, fallible
functions return `Except GrufErr`.
-/

deriving instance DecidableEq for Except

namespace Spec2Proof

/-- Error kinds, from src/gruf/src/error.rs (`GrufError`). -/
inductive GrufErr where
  | ioError
  | tryFromIntError
  | parsingError (msg : String)
  | entryNotFound
  | invalidContent (msg : String)
  | serializationError (msg : String)
  | dynAllocError
  deriving Repr, DecidableEq

/-- `GRF_HEADER_SIZE` from src/gruf/src/grf/reader.rs:
`GRF_HEADER_MAGIC.len() + 0x1E` where the magic is the 16-byte
string "Master of Magic\0". -/
def GRF_HEADER_SIZE : Nat := 16 + 0x1E

/-! ## Dynamic chunk allocator, src/gruf/src/grf/dyn_alloc.rs

`AvailableChunkList` keeps two views of the set of free chunks:
`sizes : BTreeSet<(usize, u64)>` ordered lexicographically by (size, offset)
and `chunks : BTreeMap<u64, AvailableChunk>` ordered by offset.  Both are
modelled as sorted lists of pairs. -/

structure AvailableChunkList where
  end_offset : Nat
  /-- the `sizes` BTreeSet: `(size, offset)` pairs in lexicographic order -/
  sizes : List (Nat × Nat)
  /-- the `chunks` BTreeMap: `(offset, size)` pairs ordered by offset -/
  chunks : List (Nat × Nat)
  deriving Repr, DecidableEq

/-- Lexicographic strict order on `(size, offset)` pairs, the `BTreeSet` order. -/
def pairLt (a b : Nat × Nat) : Bool :=
  a.1 < b.1 || (a.1 = b.1 && a.2 < b.2)

/-- Insert into the sorted `sizes` set (duplicates are kept once, as in a set). -/
def setInsert (x : Nat × Nat) : List (Nat × Nat) → List (Nat × Nat)
  | [] => [x]
  | y :: ys =>
    if pairLt x y then x :: y :: ys
    else if x = y then y :: ys
    else y :: setInsert x ys

/-- Remove an element from the `sizes` set; returns whether it was present
(the Rust code `assert!`s on this result). -/
def setRemove (x : Nat × Nat) : List (Nat × Nat) → Bool × List (Nat × Nat)
  | [] => (false, [])
  | y :: ys =>
    if x = y then (true, ys)
    else
      let r := setRemove x ys
      (r.1, y :: r.2)

/-- `sizes.range((size, 0)..).next()`: the least element that is
lexicographically `≥ (size, 0)`, i.e. the first suitable chunk by best fit. -/
def setRangeFirstGe (x : Nat × Nat) : List (Nat × Nat) → Option (Nat × Nat)
  | [] => none
  | y :: ys => if pairLt y x then setRangeFirstGe x ys else some y

/-- Insert into the offset-sorted `chunks` map, replacing an existing key. -/
def mapInsert (key val : Nat) : List (Nat × Nat) → List (Nat × Nat)
  | [] => [(key, val)]
  | y :: ys =>
    if key < y.1 then (key, val) :: y :: ys
    else if key = y.1 then (key, val) :: ys
    else y :: mapInsert key val ys

/-- `chunks.remove(&offset)`. -/
def mapRemove (key : Nat) : List (Nat × Nat) → Option Nat × List (Nat × Nat)
  | [] => (none, [])
  | y :: ys =>
    if key = y.1 then (some y.2, ys)
    else
      let r := mapRemove key ys
      (r.1, y :: r.2)

/-- `chunks.get(&offset)`. -/
def mapLookup (key : Nat) : List (Nat × Nat) → Option Nat
  | [] => none
  | y :: ys => if key = y.1 then some y.2 else mapLookup key ys

/-- `chunks.range(..offset).last()`: the greatest key strictly below `key`. -/
def mapRangeLtLast (key : Nat) : List (Nat × Nat) → Option (Nat × Nat)
  | [] => none
  | y :: ys =>
    if y.1 < key then
      match mapRangeLtLast key ys with
      | none => some y
      | some z => some z
    else none

namespace AvailableChunkList

/-- `AvailableChunkList::new`. -/
def new : AvailableChunkList :=
  { end_offset := GRF_HEADER_SIZE, sizes := [], chunks := [] }

/-- `insert_chunk_internal`. -/
def insertChunkInternal (st : AvailableChunkList) (offset size : Nat) :
    AvailableChunkList :=
  { st with
    sizes := setInsert (size, offset) st.sizes
    chunks := mapInsert offset size st.chunks }

/-- `remove_chunk_internal`.  Returns the removed chunk's size.  The source
propagates `None` when `chunks` has no such key and panics (`assert!`) when
the `sizes` set is out of lockstep; both are modelled as `none`. -/
def removeChunkInternal (st : AvailableChunkList) (offset : Nat) :
    Option (Nat × AvailableChunkList) :=
  match mapRemove offset st.chunks with
  | (none, _) => none
  | (some size, chunks1) =>
    let r := setRemove (size, offset) st.sizes
    if r.1 then some (size, { st with sizes := r.2, chunks := chunks1 })
    else none

/-- `find_suitable_chunk`. -/
def findSuitableChunk (st : AvailableChunkList) (size : Nat) : Nat :=
  match setRangeFirstGe (size, 0) st.sizes with
  | none => st.end_offset
  | some x => x.2

/-- `alloc_chunk`. -/
def allocChunk (st : AvailableChunkList) (size : Nat) :
    Except GrufErr (Nat × AvailableChunkList) :=
  let chunk_offset := findSuitableChunk st size
  if chunk_offset = st.end_offset then
    .ok (chunk_offset, { st with end_offset := chunk_offset + size })
  else
    match removeChunkInternal st chunk_offset with
    | none => .error .dynAllocError
    | some (csize, st1) =>
      if size < csize then
        .ok (chunk_offset,
          st1.insertChunkInternal (chunk_offset + size) (csize - size))
      else
        .ok (chunk_offset, st1)

/-- `free_chunk`. -/
def freeChunk (st : AvailableChunkList) (offset size : Nat) :
    Except GrufErr AvailableChunkList :=
  let chunk_end_offset := offset + size
  -- Check left merge
  let left : Option (Except GrufErr (AvailableChunkList × Nat × Nat)) :=
    match mapRangeLtLast offset st.chunks with
    | some (offset_left, size_left) =>
      if offset_left + size_left = offset then
        match st.removeChunkInternal offset_left with
        | none => none
        | some (csize, st1) => some (.ok (st1, offset_left, size + csize))
      else some (.ok (st, offset, size))
    | none => some (.ok (st, offset, size))
  match left with
  | none => .error .dynAllocError
  | some (.error e) => .error e
  | some (.ok (st1, new_chunk_offset, new_chunk_size)) =>
    -- Check right merge
    if chunk_end_offset = st1.end_offset then
      -- "Merge" to the right: shrink end_offset...
      let st2 := { st1 with end_offset := new_chunk_offset }
      -- ...and then the unconditional insert at the end of the function
      .ok (st2.insertChunkInternal new_chunk_offset new_chunk_size)
    else if (mapLookup chunk_end_offset st1.chunks).isSome then
      match st1.removeChunkInternal chunk_end_offset with
      | none => .error .dynAllocError
      | some (csize, st2) =>
        .ok (st2.insertChunkInternal new_chunk_offset (new_chunk_size + csize))
    else
      .ok (st1.insertChunkInternal new_chunk_offset new_chunk_size)

/-- `realloc_chunk`. -/
def reallocChunk (st : AvailableChunkList) (offset size new_size : Nat) :
    Except GrufErr (Nat × AvailableChunkList) :=
  let end_offset := offset + size
  let new_end_offset := offset + new_size
  if end_offset = st.end_offset then
    .ok (offset, { st with end_offset := new_end_offset })
  else
    let fallback : Except GrufErr (Nat × AvailableChunkList) :=
      match st.freeChunk offset size with
      | .error e => .error e
      | .ok st1 => st1.allocChunk new_size
    match mapLookup end_offset st.chunks with
    | some next_chunk_size =>
      if new_size ≤ size + next_chunk_size then
        match st.removeChunkInternal end_offset with
        | none => .error .dynAllocError
        | some (_, st1) =>
          .ok (offset,
            st1.insertChunkInternal new_end_offset
              (size + next_chunk_size - new_size))
      else fallback
    | none => fallback

end AvailableChunkList

/-! ## Legacy de-scrambler, src/gruf/src/grf/crypto/des.rs

Rust `u64` values are modelled as `Nat`; every operation that can carry out
of 64 bits (`<<`, `rotate_left`, `wrapping_mul`) reduces modulo `2 ^ 64`. -/

def U64MOD : Nat := 2 ^ 64

/-- Rust `u64` left shift (bits shifted past position 63 are discarded). -/
def shl64 (a n : Nat) : Nat := (a <<< n) % U64MOD

/-- Rust `u64::rotate_left`. -/
def rotl64 (a n : Nat) : Nat :=
  shl64 a (n % 64) ||| (a >>> (64 - n % 64)) % U64MOD

/-- Rust `u64::wrapping_mul`. -/
def mul64 (a b : Nat) : Nat := (a * b) % U64MOD

/-- `SHIFTS` from des.rs. -/
def SHIFTS : List Nat := [1, 1, 2, 2, 2, 2, 2, 2, 1, 2, 2, 2, 2, 2, 2, 1]

/-- `SBOXES` from des.rs (already rearranged for direct 6-bit indexing). -/
def SBOXES : List (List Nat) := [
  [14,  0,  4, 15, 13,  7,  1,  4,  2, 14, 15,  2, 11, 13,  8,  1,
    3, 10, 10,  6,  6, 12, 12, 11,  5,  9,  9,  5,  0,  3,  7,  8,
    4, 15,  1, 12, 14,  8,  8,  2, 13,  4,  6,  9,  2,  1, 11,  7,
   15,  5, 12, 11,  9,  3,  7, 14,  3, 10, 10,  0,  5,  6,  0, 13],
  [15,  3,  1, 13,  8,  4, 14,  7,  6, 15, 11,  2,  3,  8,  4, 14,
    9, 12,  7,  0,  2,  1, 13, 10, 12,  6,  0,  9,  5, 11, 10,  5,
    0, 13, 14,  8,  7, 10, 11,  1, 10,  3,  4, 15, 13,  4,  1,  2,
    5, 11,  8,  6, 12,  7,  6, 12,  9,  0,  3,  5,  2, 14, 15,  9],
  [10, 13,  0,  7,  9,  0, 14,  9,  6,  3,  3,  4, 15,  6,  5, 10,
    1,  2, 13,  8, 12,  5,  7, 14, 11, 12,  4, 11,  2, 15,  8,  1,
   13,  1,  6, 10,  4, 13,  9,  0,  8,  6, 15,  9,  3,  8,  0,  7,
   11,  4,  1, 15,  2, 14, 12,  3,  5, 11, 10,  5, 14,  2,  7, 12],
  [ 7, 13, 13,  8, 14, 11,  3,  5,  0,  6,  6, 15,  9,  0, 10,  3,
    1,  4,  2,  7,  8,  2,  5, 12, 11,  1, 12, 10,  4, 14, 15,  9,
   10,  3,  6, 15,  9,  0,  0,  6, 12, 10, 11,  1,  7, 13, 13,  8,
   15,  9,  1,  4,  3,  5, 14, 11,  5, 12,  2,  7,  8,  2,  4, 14],
  [ 2, 14, 12, 11,  4,  2,  1, 12,  7,  4, 10,  7, 11, 13,  6,  1,
    8,  5,  5,  0,  3, 15, 15, 10, 13,  3,  0,  9, 14,  8,  9,  6,
    4, 11,  2,  8,  1, 12, 11,  7, 10,  1, 13, 14,  7,  2,  8, 13,
   15,  6,  9, 15, 12,  0,  5,  9,  6, 10,  3,  4,  0,  5, 14,  3],
  [12, 10,  1, 15, 10,  4, 15,  2,  9,  7,  2, 12,  6,  9,  8,  5,
    0,  6, 13,  1,  3, 13,  4, 14, 14,  0,  7, 11,  5,  3, 11,  8,
    9,  4, 14,  3, 15,  2,  5, 12,  2,  9,  8,  5, 12, 15,  3, 10,
    7, 11,  0, 14,  4,  1, 10,  7,  1,  6, 13,  0, 11,  8,  6, 13],
  [ 4, 13, 11,  0,  2, 11, 14,  7, 15,  4,  0,  9,  8,  1, 13, 10,
    3, 14, 12,  3,  9,  5,  7, 12,  5,  2, 10, 15,  6,  8,  1,  6,
    1,  6,  4, 11, 11, 13, 13,  8, 12,  1,  3,  4,  7, 10, 14,  7,
   10,  9, 15,  5,  6,  0,  8, 15,  0, 14,  5,  2,  9,  3,  2, 12],
  [13,  1,  2, 15,  8, 13,  4,  8,  6, 10, 15,  3, 11,  7,  1,  4,
   10, 12,  9,  5,  3,  6, 14, 11,  5,  0,  0, 14, 12,  9,  7,  2,
    7,  2, 11,  1,  4, 14,  1,  7,  9,  4, 12, 10, 14,  8,  2, 13,
    0, 15,  6, 12, 10,  9, 13,  0, 15,  3,  3,  5,  5,  6,  8, 11]]

/-- `delta_swap` from des.rs. -/
def delta_swap (a delta mask : Nat) : Nat :=
  let b := (a ^^^ (a >>> delta)) &&& mask
  (a ^^^ b) ^^^ shl64 b delta

/-- `pc1` from des.rs. -/
def pc1 (key0 : Nat) : Nat :=
  let key1 := delta_swap key0 2 0x3333000033330000
  let key2 := delta_swap key1 4 0x0f0f0f0f00000000
  let key3 := delta_swap key2 8 0x009a000a00a200a8
  let key4 := delta_swap key3 16 0x00006c6c0000cccc
  let key5 := delta_swap key4 1 0x1045500500550550
  let key6 := delta_swap key5 32 0x00000000f0f0f5fa
  let key7 := delta_swap key6 8 0x00550055006a00aa
  let key8 := delta_swap key7 2 0x0000333330000300
  key8 &&& 0xFFFFFFFFFFFFFF00

/-- `pc2` from des.rs. -/
def pc2 (key0 : Nat) : Nat :=
  let key := rotl64 key0 61
  let b1 := (key &&& 0x0021000002000000) >>> 7
  let b2 := shl64 (key &&& 0x0008020010080000) 1
  let b3 := key &&& 0x0002200000000000
  let b4 := shl64 (key &&& 0x0000000000100020) 19
  let b5 := mul64 (rotl64 key 54 &&& 0x0005312400000011) 0x0000000094200201
    &&& 0xea40100880000000
  let b6 := mul64 (rotl64 key 7 &&& 0x0022110000012001) 0x0001000000610006
    &&& 0x1185004400000000
  let b7 := mul64 (rotl64 key 6 &&& 0x0000520040200002) 0x00000080000000c1
    &&& 0x0028811000200000
  let b8 := mul64 (key &&& 0x01000004c0011100) 0x0000000000004284
    &&& 0x0400082244400000
  let b9 := mul64 (rotl64 key 60 &&& 0x0000000000820280) 0x0000000000089001
    &&& 0x0000000110880000
  let b10 := mul64 (rotl64 key 49 &&& 0x0000000000024084) 0x0000000002040005
    &&& 0x000000000a030000
  b1 ||| b2 ||| b3 ||| b4 ||| b5 ||| b6 ||| b7 ||| b8 ||| b9 ||| b10

/-- `fp` from des.rs. -/
def fp (m0 : Nat) : Nat :=
  let m1 := delta_swap m0 24 0x000000FF000000FF
  let m2 := delta_swap m1 24 0x00000000FF00FF00
  let m3 := delta_swap m2 36 0x000000000F0F0F0F
  let m4 := delta_swap m3 18 0x0000333300003333
  delta_swap m4 9 0x0055005500550055

/-- `ip` from des.rs. -/
def ip (m0 : Nat) : Nat :=
  let m1 := delta_swap m0 9 0x0055005500550055
  let m2 := delta_swap m1 18 0x0000333300003333
  let m3 := delta_swap m2 36 0x000000000F0F0F0F
  let m4 := delta_swap m3 24 0x00000000FF00FF00
  delta_swap m4 24 0x000000FF000000FF

/-- `e` from des.rs (the constant `RESULT_LEN - 1` is 47, `BLOCK_LEN - 1` is 31). -/
def desE (block : Nat) : Nat :=
  let b1 := shl64 block 31 &&& 0x8000000000000000
  let b2 := (block >>> 1) &&& 0x7C00000000000000
  let b3 := (block >>> 3) &&& 0x03F0000000000000
  let b4 := (block >>> 5) &&& 0x000FC00000000000
  let b5 := (block >>> 7) &&& 0x00003F0000000000
  let b6 := (block >>> 9) &&& 0x000000FC00000000
  let b7 := (block >>> 11) &&& 0x00000003F0000000
  let b8 := (block >>> 13) &&& 0x000000000FC00000
  let b9 := (block >>> 15) &&& 0x00000000003E0000
  let b10 := (block >>> 47) &&& 0x0000000000010000
  b1 ||| b2 ||| b3 ||| b4 ||| b5 ||| b6 ||| b7 ||| b8 ||| b9 ||| b10

/-- `p` from des.rs. -/
def desP (block0 : Nat) : Nat :=
  let block := rotl64 block0 44
  let b1 := shl64 (block &&& 0x0000000000200000) 32
  let b2 := shl64 (block &&& 0x0000000000480000) 13
  let b3 := shl64 (block &&& 0x0000088000000000) 12
  let b4 := shl64 (block &&& 0x0000002020120000) 25
  let b5 := shl64 (block &&& 0x0000000442000000) 14
  let b6 := shl64 (block &&& 0x0000000001800000) 37
  let b7 := shl64 (block &&& 0x0000000004000000) 24
  let b8 := mul64 (block &&& 0x0000020280015000) 0x0000020080800083
    &&& 0x02000a6400000000
  let b9 := mul64 (rotl64 block 29 &&& 0x01001400000000aa) 0x0000210210008081
    &&& 0x0902c01200000000
  let b10 := mul64 (block &&& 0x0000000910040000) 0x0000000c04000020
    &&& 0x8410010000000000
  b1 ||| b2 ||| b3 ||| b4 ||| b5 ||| b6 ||| b7 ||| b8 ||| b9 ||| b10

/-- `rotate` from des.rs: left rotate on a 28-bit number. -/
def desRotate (val shift : Nat) : Nat :=
  let top_bits := val >>> (28 - shift)
  ((val <<< shift) ||| top_bits) &&& 0x0FFFFFFF

/-- `gen_keys` from des.rs: the 16 subkeys. -/
def gen_keys (key0 : Nat) : List Nat :=
  let key := pc1 key0 >>> 8
  let c0 := key >>> 28
  let d0 := key &&& 0x0FFFFFFF
  let r := SHIFTS.foldl
    (fun (acc : Nat × Nat × List Nat) s =>
      let c := desRotate acc.1 s
      let d := desRotate acc.2.1 s
      (c, d, acc.2.2 ++ [pc2 (shl64 ((c <<< 28) ||| d) 8)]))
    (c0, d0, [])
  r.2.2

/-- `apply_sboxes` from des.rs. -/
def apply_sboxes (input : Nat) : Nat :=
  (List.range 8).foldl
    (fun output i =>
      let v := (input >>> (58 - i * 6)) &&& 0x3F
      output ||| shl64 ((SBOXES.getD i []).getD v 0) (60 - i * 4))
    0

/-- `f` from des.rs. -/
def desF (input key : Nat) : Nat :=
  desP (apply_sboxes (desE input ^^^ key))

/-- `round` from des.rs. -/
def desRound (input key : Nat) : Nat :=
  let l := input &&& shl64 0xFFFFFFFF 32
  let r := shl64 input 32
  r ||| ((desF r key ^^^ l) >>> 32)

/-- `Des::decrypt_block_1_round`: one DES round with the last subkey. -/
def decrypt_block_1_round (keys : List Nat) (data0 : Nat) : Nat :=
  let data1 := ip data0
  let data2 := desRound data1 (keys.getD 15 0)
  fp (shl64 data2 32 ||| (data2 >>> 32))

/-! ## src/gruf/src/grf/crypto/mod.rs -/

/-- `DES_BLOCK_SIZE`. -/
def DES_BLOCK_SIZE : Nat := 8

/-- `read_be_u64`: big-endian u64 from the first 8 bytes. -/
def read_be_u64 (l : List Nat) : Nat :=
  (l.take 8).foldl (fun a b => a * 256 + b) 0

/-- `u64::to_be_bytes`. -/
def u64_to_be_bytes (n : Nat) : List Nat :=
  [(n >>> 56) &&& 255, (n >>> 48) &&& 255, (n >>> 40) &&& 255,
   (n >>> 32) &&& 255, (n >>> 24) &&& 255, (n >>> 16) &&& 255,
   (n >>> 8) &&& 255, n &&& 255]

/-- `permute_byte` from crypto/mod.rs: the fixed 14-entry substitution. -/
def permute_byte (b : Nat) : Nat :=
  match b with
  | 0x00 => 0x2B
  | 0x01 => 0x68
  | 0x2B => 0x00
  | 0x48 => 0x77
  | 0x60 => 0xFF
  | 0x68 => 0x01
  | 0x6C => 0x80
  | 0x77 => 0x48
  | 0x80 => 0x6C
  | 0xB9 => 0xC0
  | 0xC0 => 0xB9
  | 0xEB => 0xFE
  | 0xFE => 0xEB
  | 0xFF => 0x60
  | _ => b

/-- `swap_nibbles`: per byte, `(b << 4) | (b >> 4)` on `u8`. -/
def swap_nibbles (l : List Nat) : List Nat :=
  l.map (fun b => ((b <<< 4) % 256) ||| (b >>> 4))

/-- `remove_zero_padding`: drops the trailing zero bytes (the source pops
them one by one from the back with `swap_remove`). -/
def remove_zero_padding (l : List Nat) : List Nat :=
  (l.reverse.dropWhile (fun b => b = 0)).reverse

/-- `update_cycle` from crypto/mod.rs. -/
def update_cycle (cycle : Nat) : Nat :=
  if cycle < 3 then 3
  else if cycle < 5 then cycle + 1
  else if cycle < 7 then cycle + 9
  else cycle + 15

/-- One DES-decrypted 8-byte block:
`u64::to_be_bytes(des.decrypt_block_1_round(read_be_u64(block)))`. -/
def desDecryptBlockBytes (keys : List Nat) (b : List Nat) : List Nat :=
  u64_to_be_bytes (decrypt_block_1_round keys (read_be_u64 b))

/-- The byte shuffle applied to a qualifying block in
`grf_decrypt_shuffled` (crypto/mod.rs lines 72-82): positions 0..6 of the
output take input positions 3, 4, 6, 0, 1, 2, 5 and position 7 goes through
`permute_byte`. -/
def shuffleBlock (b : List Nat) : List Nat :=
  [b.getD 3 0, b.getD 4 0, b.getD 6 0, b.getD 0 0, b.getD 1 0, b.getD 2 0,
   b.getD 5 0, permute_byte (b.getD 7 0)]

/-- The 8-byte blocks of a buffer, block `i` being
`buffer[8 * i .. 8 * i + 8)` for `i < buffer.len() / 8`, exactly the ranges
the loop in `grf_decrypt_shuffled` visits. -/
def blocksOf8 (l : List Nat) : List (List Nat) :=
  (List.range (l.length / 8)).map (fun i => (l.drop (8 * i)).take 8)

/-- The loop body of `grf_decrypt_shuffled`: each iteration touches only
block `i` and threads the counter `j` (reset to 0 then incremented — hence 1
— after a shuffle, incremented after a skipped block, untouched by the DES
branch). -/
def grfShuffledGo (keys : List Nat) (uc : Nat) :
    Nat → Nat → List (List Nat) → List (List Nat)
  | _, _, [] => []
  | i, j, b :: rest =>
    if i < 20 ∨ i % uc = 0 then
      desDecryptBlockBytes keys b :: grfShuffledGo keys uc (i + 1) j rest
    else if j = 7 then
      shuffleBlock b :: grfShuffledGo keys uc (i + 1) 1 rest
    else
      b :: grfShuffledGo keys uc (i + 1) (j + 1) rest

/-- `grf_decrypt_shuffled` from crypto/mod.rs.  The trailing
`buffer.len() mod 8` bytes are never visited by the loop. -/
def grf_decrypt_shuffled (key cycle : Nat) (buffer : List Nat) : List Nat :=
  let keys := gen_keys key
  let uc := update_cycle cycle
  (grfShuffledGo keys uc 0 0 (blocksOf8 buffer)).flatten
    ++ buffer.drop (8 * (buffer.length / 8))

/-- `grf_decrypt_first_blocks` from crypto/mod.rs: DES on the first
`min(num_blocks, 20)` blocks, everything else untouched. -/
def grf_decrypt_first_blocks (key : Nat) (buffer : List Nat) : List Nat :=
  let keys := gen_keys key
  ((blocksOf8 buffer).mapIdx
      (fun i b => if i < min (buffer.length / 8) 20 then
        desDecryptBlockBytes keys b else b)).flatten
    ++ buffer.drop (8 * (buffer.length / 8))

/-- `decrypt_file_name` from crypto/mod.rs. -/
def decrypt_file_name (file_name : List Nat) : List Nat :=
  remove_zero_padding (grf_decrypt_shuffled 0 1 (swap_nibbles file_name))

/-- `decrypt_file_content` from crypto/mod.rs. -/
def decrypt_file_content (data : List Nat) (cycle : Nat) : List Nat :=
  if cycle = 0 then grf_decrypt_first_blocks 0 data
  else grf_decrypt_shuffled 0 cycle data

/-- The `j`-counter transition of one loop iteration of
`grf_decrypt_shuffled` at block index `i`. -/
def stepJ (uc i j : Nat) : Nat :=
  if i < 20 ∨ i % uc = 0 then j
  else if j = 7 then 1
  else j + 1

/-- The `j`-counter after `n` iterations starting from block `i` with
counter `j`. -/
def jCounterFrom (uc : Nat) : Nat → Nat → Nat → Nat
  | _, j, 0 => j
  | i, j, n + 1 => jCounterFrom uc (i + 1) (stepJ uc i j) n

/-- The value of the `j` counter of `grf_decrypt_shuffled` when the loop
reaches block index `i`. -/
def jCounter (uc i : Nat) : Nat := jCounterFrom uc 0 0 i

/-- What one loop iteration of `grf_decrypt_shuffled` does to block `i`
when the counter is `j`. -/
def shuffledBlockStep (keys : List Nat) (uc i j : Nat) (b : List Nat) :
    List Nat :=
  if i < 20 ∨ i % uc = 0 then desDecryptBlockBytes keys b
  else if j = 7 then shuffleBlock b
  else b

/-! ## Byte-level serialization helpers (bincode 1.x legacy options:
fixed-width little-endian integers). -/

/-- Little-endian serialization of a `u32`. -/
def u32le (n : Nat) : List Nat :=
  [n % 256, n / 256 % 256, n / 65536 % 256, n / 16777216 % 256]

/-- Little-endian serialization of a `u16` (also used for nonnegative
`i16` values such as the THOR mode). -/
def u16le (n : Nat) : List Nat := [n % 256, n / 256 % 256]

/-- Read one byte. -/
def readU8 : List Nat → Option (Nat × List Nat)
  | [] => none
  | b :: r => some (b, r)

/-- `le_u32`. -/
def readU32le : List Nat → Option (Nat × List Nat)
  | b0 :: b1 :: b2 :: b3 :: r =>
    some (b0 + 256 * (b1 + 256 * (b2 + 256 * b3)), r)
  | _ => none

/-- `le_i16`, two's complement. -/
def readI16le : List Nat → Option (Int × List Nat)
  | b0 :: b1 :: r =>
    let v := b0 + 256 * b1
    some (if v < 32768 then (v : Int) else (v : Int) - 65536, r)
  | _ => none

/-- `le_i32`, two's complement. -/
def readI32le : List Nat → Option (Int × List Nat)
  | b0 :: b1 :: b2 :: b3 :: r =>
    let v := b0 + 256 * (b1 + 256 * (b2 + 256 * b3))
    some (if v < 2 ^ 31 then (v : Int) else (v : Int) - 2 ^ 32, r)
  | _ => none

/-- `tag!(magic)`: consume an expected byte prefix. -/
def readTag (tag : List Nat) (input : List Nat) : Option (List Nat) :=
  if input.take tag.length = tag then some (input.drop tag.length) else none

/-- `take!(n)`. -/
def readTake (n : Nat) (input : List Nat) : Option (List Nat × List Nat) :=
  if n ≤ input.length then some (input.take n, input.drop n) else none

/-! ## THOR header, src/gruf/src/thor/builder.rs and reader.rs -/

/-- `THOR_HEADER_MAGIC`, the 24 bytes of `ASSF (C) 2007 Aeomin DEV`. -/
def THOR_HEADER_MAGIC : List Nat :=
  [65, 83, 83, 70, 32, 40, 67, 41, 32, 50, 48, 48, 55, 32, 65, 101, 111,
   109, 105, 110, 32, 68, 69, 86]

/-- `ThorMode` from thor/mod.rs. -/
inductive ThorMode where
  | SingleFile
  | MultipleFiles
  | Invalid
  deriving Repr, DecidableEq

/-- `i16_to_thor_mode` from thor/reader.rs. -/
def i16_to_thor_mode (i : Int) : ThorMode :=
  if i = 33 then .SingleFile
  else if i = 48 then .MultipleFiles
  else .Invalid

/-- `thor_mode_to_i16` from thor/builder.rs. -/
def thor_mode_to_i16 (m : ThorMode) : Option Int :=
  match m with
  | .SingleFile => some 33
  | .MultipleFiles => some 48
  | .Invalid => none

/-- The parsed THOR header (thor/reader.rs `ThorHeader`); the
`target_grf_name` string is kept as its raw bytes (the reader's UTF-8
decoding of those bytes is not modelled — it is length-faithful). -/
structure ThorHeaderP where
  use_grf_merging : Bool
  file_count : Nat
  mode : ThorMode
  target_grf_name : List Nat
  deriving Repr, DecidableEq

/-- `write_thor_header` from thor/builder.rs: magic, `u8` merge flag,
`u32` file count (`u32::try_from` fails at `2^32`), `i16` mode
(`MultipleFiles` = 48), length-prefixed name
(`u8::try_from` fails at 256), then the two `u32` table-descriptor fields.
The caller (`finish`) passes `self.entries.len()` as `file_count`. -/
def writeThorHeader (use_grf_merging : Bool) (file_count : Nat)
    (target_grf_name : List Nat)
    (file_table_compressed_size file_table_offset : Nat) :
    Except GrufErr (List Nat) :=
  if file_count < 2 ^ 32 then
    if target_grf_name.length < 256 then
      if file_table_compressed_size < 2 ^ 32 then
        if file_table_offset < 2 ^ 32 then
          .ok (THOR_HEADER_MAGIC
            ++ [if use_grf_merging then 1 else 0]
            ++ u32le file_count
            ++ u16le 48
            ++ [target_grf_name.length]
            ++ target_grf_name
            ++ u32le file_table_compressed_size
            ++ u32le file_table_offset)
        else .error .tryFromIntError
      else .error .tryFromIntError
    else .error .tryFromIntError
  else .error .tryFromIntError

/-- `parse_thor_header` from thor/reader.rs: the stored `u32` count is kept
unchanged (`file_count: file_count as usize`). -/
def parseThorHeader (input : List Nat) :
    Option (ThorHeaderP × List Nat) :=
  match readTag THOR_HEADER_MAGIC input with
  | none => none
  | some r0 =>
    match readU8 r0 with
    | none => none
    | some (use_grf_merging, r1) =>
      match readU32le r1 with
      | none => none
      | some (file_count, r2) =>
        match readI16le r2 with
        | none => none
        | some (mode, r3) =>
          match readU8 r3 with
          | none => none
          | some (name_size, r4) =>
            match readTake name_size r4 with
            | none => none
            | some (name, r5) =>
              some (⟨use_grf_merging = 1, file_count,
                i16_to_thor_mode mode, name⟩, r5)

/-! ## Patch orchestrator cursor, src/rpatchur/src/patcher/core.rs -/

/-- `ThorPatchInfo` from thor/reader.rs. -/
structure PatchInfo where
  index : Nat
  file_name : String
  deriving Repr, DecidableEq

/-- The patch-list filter of `interruptible_patcher_routine`
(core.rs lines 89-98): when the cache could be read, the list is filtered
to indices strictly greater than the cached one — but only if some entry
equals the cached index ("we verify that our cached index looks
relevant"); otherwise the list is left as is. -/
def filterPatchList (cache : Option Nat) (patch_list : List PatchInfo) :
    List PatchInfo :=
  match cache with
  | none => patch_list
  | some cached =>
    if patch_list.any (fun x => x.index = cached) then
      patch_list.filter (fun x => cached < x.index)
    else patch_list

/-- The sequence of values `apply_patches` (core.rs lines 389-448) writes to
the cursor file: after each successful apply it persists that patch's
index, in list order. -/
def cursorWrites (pending : List PatchInfo) : List Nat :=
  pending.map (fun p => p.index)

/-! ## Windows-1252 decoding (the external `encoding` crate's
windows-1252 codec, per the WHATWG index: total on bytes). -/

/-- The Unicode code point of a Windows-1252 byte.  Bytes below 0x80 and
from 0xA0 up map to themselves; 0x80..0x9F use the WHATWG table (the five
unassigned bytes map to the same C1 control code points). -/
def win1252ToChar (b : Nat) : Nat :=
  if b < 0x80 then b
  else if 0xA0 ≤ b then b
  else match b with
  | 0x80 => 0x20AC
  | 0x81 => 0x81
  | 0x82 => 0x201A
  | 0x83 => 0x192
  | 0x84 => 0x201E
  | 0x85 => 0x2026
  | 0x86 => 0x2020
  | 0x87 => 0x2021
  | 0x88 => 0x2C6
  | 0x89 => 0x2030
  | 0x8A => 0x160
  | 0x8B => 0x2039
  | 0x8C => 0x152
  | 0x8D => 0x8D
  | 0x8E => 0x17D
  | 0x8F => 0x8F
  | 0x90 => 0x90
  | 0x91 => 0x2018
  | 0x92 => 0x2019
  | 0x93 => 0x201C
  | 0x94 => 0x201D
  | 0x95 => 0x2022
  | 0x96 => 0x2013
  | 0x97 => 0x2014
  | 0x98 => 0x2DC
  | 0x99 => 0x2122
  | 0x9A => 0x161
  | 0x9B => 0x203A
  | 0x9C => 0x153
  | 0x9D => 0x9D
  | 0x9E => 0x17E
  | _ => 0x178

/-- `string_from_win_1252` (reader.rs): strict decoding; total because the
WHATWG windows-1252 index maps every byte. -/
def string_from_win_1252 (l : List Nat) : String :=
  String.mk (l.map (fun b => Char.ofNat (win1252ToChar b)))

/-- The inverse: strict Windows-1252 encoding of one character
(`serialize_to_win1252` in archive.rs, via the external `encoding` crate):
the unique byte decoding to it, if any. -/
def win1252OfChar (c : Nat) : Option Nat :=
  ((List.range 256).filter (fun b => win1252ToChar b = c)).head?

/-- The error message of `serialize_to_win1252`. -/
def encodingFailedMsg : String := "Encoding failed"

/-- `serialize_to_win1252` (archive.rs): strict, fails on un-encodable
characters. -/
def serialize_to_win1252 (s : String) : Except GrufErr (List Nat) :=
  let opts := s.data.map (fun c => win1252OfChar c.toNat)
  if opts.all (fun o => o.isSome) then
    .ok (opts.map (fun o => o.getD 0))
  else .error (.serializationError encodingFailedMsg)

/-! ## CRC32-IEEE (`crc` crate, `crc32::checksum_ieee`): reflected
polynomial 0xEDB88320, initial value and final xor 0xFFFFFFFF. -/

/-- One bit round of the reflected CRC32. -/
def crc32Round (crc : Nat) : Nat :=
  if crc % 2 = 1 then (crc >>> 1) ^^^ 0xEDB88320 else crc >>> 1

/-- `crc32::checksum_ieee`. -/
def crc32_ieee (data : List Nat) : Nat :=
  (data.foldl
    (fun crc b => (List.range 8).foldl (fun c _ => crc32Round c) (crc ^^^ b))
    0xFFFFFFFF) ^^^ 0xFFFFFFFF

/-! ## THOR archive reading, src/gruf/src/thor/reader.rs

The archive is modelled after parsing: the backing reader's byte content
plus the entry index (`HashMap<String, ThorFileEntry>` as an association
list in insertion order).  zlib inflation (`flate2`, an external crate) is a
parameter `inflate`; its failure surfaces as the i/o error it is in the
source. -/

/-- `ThorFileEntry`. -/
structure ThorEntryM where
  size_compressed : Nat
  size : Nat
  relative_path : String
  is_removed : Bool
  offset : Nat
  deriving Repr, DecidableEq

/-- A parsed THOR archive with its backing byte content. -/
structure ThorArchM where
  data : List Nat
  entries : List (String × ThorEntryM)
  deriving Repr, DecidableEq

/-- `HashMap::get`. -/
def assocLookup {α : Type} (k : String) : List (String × α) → Option α
  | [] => none
  | (k1, v) :: rest => if k = k1 then some v else assocLookup k rest

/-- `HashMap::insert` / collect: a later binding overwrites an earlier one. -/
def assocUpdate {α : Type} (k : String) (v : α) :
    List (String × α) → List (String × α)
  | [] => [(k, v)]
  | (k1, v1) :: rest =>
    if k = k1 then (k, v) :: rest else (k1, v1) :: assocUpdate k v rest

/-- The message of the decompressed-size check in `read_file_content`. -/
def sizeMismatchMsg : String := "Decompressed content is not as expected"

/-- `ThorArchive::read_file_content`: look the entry up (`EntryNotFound` if
absent), return empty for `size_compressed == 0`, otherwise read
`size_compressed` bytes at `offset`, inflate, and demand the decompressed
length equal `size`. -/
def thorReadFileContent (inflate : List Nat → Option (List Nat))
    (a : ThorArchM) (file_path : String) : Except GrufErr (List Nat) :=
  match assocLookup file_path a.entries with
  | none => .error .entryNotFound
  | some e =>
    if e.size_compressed = 0 then .ok []
    else
      let content := (a.data.drop e.offset).take e.size_compressed
      match inflate content with
      | none => .error .ioError
      | some dec =>
        if dec.length = e.size then .ok dec
        else .error (.parsingError sizeMismatchMsg)

/-- `INTEGRITY_FILE_NAME` from thor/mod.rs. -/
def INTEGRITY_FILE_NAME : String := "data.integrity"

/-- `str::split(sep)` on a character list (used for `split('=')` and as the
basis of `lines`): splitting the empty string yields one empty piece. -/
def splitOnChar (sep : Char) : List Char → List (List Char)
  | [] => [[]]
  | c :: rest =>
    let r := splitOnChar sep rest
    if c = sep then [] :: r
    else
      match r with
      | [] => [[c]]
      | h :: t => (c :: h) :: t

/-- `str::lines` on a character list: split at `\n`, dropping one `\r`
right before each `\n`; a final fragment not terminated by `\n` keeps a
trailing `\r`; the final empty fragment after a terminating `\n` is not
yielded. -/
def rustLinesChars (l : List Char) : List (List Char) :=
  let parts := splitOnChar (Char.ofNat 10) l
  let stripped := parts.mapIdx
    (fun i p =>
      if i + 1 < parts.length ∧ p.getLast? = some (Char.ofNat 13) then
        p.dropLast
      else p)
  match stripped.getLast? with
  | some lastp => if lastp = [] then stripped.dropLast else stripped
  | none => stripped

/-- `str::trim` on a character list (ASCII whitespace). -/
def trimChars (l : List Char) : List Char :=
  ((l.dropWhile Char.isWhitespace).reverse.dropWhile Char.isWhitespace).reverse

/-- `str::trim_start_matches("0x")`: repeatedly strip the prefix. -/
def trimStartMatches0x : Nat → List Char → List Char
  | 0, l => l
  | fuel + 1, l =>
    match l with
    | c0 :: c1 :: rest =>
      if c0 = Char.ofNat 48 ∧ c1 = Char.ofNat 120 then
        trimStartMatches0x fuel rest
      else l
    | _ => l

/-- The value of one hex digit, if it is one. -/
def hexDigitVal (c : Char) : Option Nat :=
  if 48 ≤ c.toNat ∧ c.toNat ≤ 57 then some (c.toNat - 48)
  else if 97 ≤ c.toNat ∧ c.toNat ≤ 102 then some (c.toNat - 87)
  else if 65 ≤ c.toNat ∧ c.toNat ≤ 70 then some (c.toNat - 55)
  else none

/-- `u32::from_str_radix(s, 16)`: optional sign, at least one hex digit,
result below `2 ^ 32`; a minus sign only admits the value 0. -/
def u32FromHexChars (s : List Char) : Option Nat :=
  match s with
  | [] => none
  | c :: rest =>
    let digits := if c = Char.ofNat 43 ∨ c = Char.ofNat 45 then rest
      else c :: rest
    let neg := c = Char.ofNat 45
    if digits.isEmpty then none
    else if digits.all (fun d => (hexDigitVal d).isSome) then
      let v := digits.foldl (fun acc d => acc * 16 + (hexDigitVal d).getD 0) 0
      if v < 2 ^ 32 then (if neg ∧ v ≠ 0 then none else some v) else none
    else none

/-- `parse_data_integrity_info` (reader.rs): split every line at `=`,
parse the hex value, skip malformed lines, collect into a map where a
repeated path keeps the last value. -/
def parse_data_integrity_info (data : String) : List (String × Nat) :=
  (rustLinesChars data.data).foldl
    (fun acc line =>
      let words := splitOnChar (Char.ofNat 61) (trimChars line)
      match words.get? 0, words.get? 1 with
      | some file_name, some hash_str =>
        match u32FromHexChars (trimStartMatches0x hash_str.length hash_str) with
        | some hash => assocUpdate (String.mk file_name) hash acc
        | none => acc
      | _, _ => acc)
    []

/-- The per-manifest-entry loop of `is_valid`: an unreadable referenced
entry or a CRC mismatch yields `Ok(false)`; an empty remainder yields
`Ok(true)`. -/
def thorIsValidGo (inflate : List Nat → Option (List Nat)) (a : ThorArchM) :
    List (String × Nat) → Except GrufErr Bool
  | [] => .ok true
  | (p, h) :: rest =>
    match thorReadFileContent inflate a p with
    | .error _ => .ok false
    | .ok c =>
      if crc32_ieee c = h then thorIsValidGo inflate a rest
      else .ok false

/-- `ThorArchive::is_valid`. -/
def thorIsValid (inflate : List Nat → Option (List Nat)) (a : ThorArchM) :
    Except GrufErr Bool :=
  match thorReadFileContent inflate a INTEGRITY_FILE_NAME with
  | .error e => .error e
  | .ok bytes =>
    thorIsValidGo inflate a
      (parse_data_integrity_info (string_from_win_1252 bytes))

/-- The identity codec standing in for zlib in concrete witnesses. -/
def inflId : List Nat → Option (List Nat) := fun l => some l

/-- A concrete THOR archive for witnesses: its backing bytes are the
manifest `a=0x00000000` and it indexes the integrity entry plus an empty
entry `a`. -/
def thorWitnessManifest : List Nat :=
  [97, 61, 48, 120, 48, 48, 48, 48, 48, 48, 48, 48]

/-- The path referenced by `thorWitnessManifest`. -/
def pathA : String := "a"

/-- The witness archive for the `is_valid` specification. -/
def thorWitnessArchive : ThorArchM :=
  { data := thorWitnessManifest
    entries :=
      [(INTEGRITY_FILE_NAME, ⟨12, 12, INTEGRITY_FILE_NAME, false, 0⟩),
       (pathA, ⟨0, 0, pathA, false, 0⟩)] }

/-! ## GRF archive, src/gruf/src/grf/reader.rs and builder.rs

The builder's writer and the reader's file are byte lists; `seek` + `write`
becomes `writeAt`.  zlib (external crate `flate2`) is a parameter pair
`deflate` / `inflate`. -/

/-- `GRF_HEADER_MAGIC` as bytes ("Master of Magic" and a NUL). -/
def GRF_HEADER_MAGIC_B : List Nat :=
  [77, 97, 115, 116, 101, 114, 32, 111, 102, 32, 77, 97, 103, 105, 99, 0]

/-- `GRF_FIXED_KEY` from builder.rs. -/
def GRF_FIXED_KEY : List Nat := [1, 2, 3, 4, 5, 6, 7, 8, 9, 10, 11, 12, 13, 14]

/-- `seek(Start(pos))` followed by a write: bytes before `pos` are kept, a
gap beyond the end of file reads as zeros, written bytes replace what was
there. -/
def writeAt (file : List Nat) (pos : Nat) (data : List Nat) : List Nat :=
  file.take pos ++ List.replicate (pos - file.length) 0 ++ data
    ++ file.drop (pos + data.length)

/-- `GenericFileEntry` from archive.rs. -/
structure GenericFileEntry where
  offset : Nat
  size : Nat
  size_compressed : Nat
  deriving Repr, DecidableEq

/-- `GrfArchiveBuilder` state (builder.rs) together with its writer's
bytes. -/
structure GrfBuilderState where
  file : List Nat
  start_offset : Nat
  finished : Bool
  version_major : Nat
  version_minor : Nat
  entries : List (String × GenericFileEntry)
  chunks : AvailableChunkList
  deriving Repr, DecidableEq

/-- `GrfArchiveBuilder::create` on a fresh writer: a `GRF_HEADER_SIZE`
placeholder of zeros, an empty chunk list. -/
def grfBuilderCreate (version_major version_minor : Nat) : GrfBuilderState :=
  { file := List.replicate GRF_HEADER_SIZE 0
    start_offset := 0
    finished := false
    version_major := version_major
    version_minor := version_minor
    entries := []
    chunks := AvailableChunkList.new }

/-- `GrfArchiveBuilder::add_file`: compress, `u32`-check the uncompressed
size, `realloc` when the path is present or `alloc` otherwise, write the
compressed bytes at `start_offset + offset`, `u32`-check the compressed
size and update the index. -/
def grfAddFile (deflate : List Nat → List Nat) (st : GrfBuilderState)
    (relative_path : String) (data : List Nat) :
    Except GrufErr GrfBuilderState :=
  let data_size := data.length
  if data_size < 2 ^ 32 then
    let compressed_data := deflate data
    let compressed_data_size := compressed_data.length
    let allocRes :=
      match assocLookup relative_path st.entries with
      | some grf_entry =>
        st.chunks.reallocChunk grf_entry.offset grf_entry.size_compressed
          compressed_data_size
      | none => st.chunks.allocChunk compressed_data_size
    match allocRes with
    | .error e => .error e
    | .ok (offset, chunks1) =>
      let file1 := writeAt st.file (st.start_offset + offset) compressed_data
      if compressed_data_size < 2 ^ 32 then
        .ok { st with
          file := file1
          chunks := chunks1
          entries := assocUpdate relative_path
            ⟨offset, data_size, compressed_data_size⟩ st.entries }
      else .error .tryFromIntError
  else .error .tryFromIntError

/-- The per-entry bytes of `write_grf_table_200`: NUL-terminated
Windows-1252 path, then packed
`(size_compressed, size_compressed_aligned = size_compressed, size,
entry_type = 1, offset - GRF_HEADER_SIZE)` (the offset cast to `u32`
wraps). -/
def serGrfEntries200 : List (String × GenericFileEntry) →
    Except GrufErr (List Nat)
  | [] => .ok []
  | (p, e) :: rest =>
    match serialize_to_win1252 p with
    | .error err => .error err
    | .ok pb =>
      match serGrfEntries200 rest with
      | .error err => .error err
      | .ok restb =>
        .ok (pb ++ [0] ++ u32le e.size_compressed ++ u32le e.size_compressed
          ++ u32le e.size ++ [1]
          ++ u32le ((e.offset - GRF_HEADER_SIZE) % 2 ^ 32) ++ restb)

/-- `write_grf_table_200`: build the table, compress it, `alloc` room for
it plus the 8-byte length preamble, write
`compressed_size, table_size, compressed bytes` there, and return the
table's offset. -/
def grfWriteTable200 (deflate : List Nat → List Nat)
    (st : GrfBuilderState) : Except GrufErr (Nat × GrfBuilderState) :=
  match serGrfEntries200 st.entries with
  | .error e => .error e
  | .ok table =>
    let compressed_table := deflate table
    let compressed_table_size := compressed_table.length
    match st.chunks.allocChunk (compressed_table_size + 8) with
    | .error e => .error e
    | .ok (table_offset, chunks1) =>
      if table.length < 2 ^ 32 then
        if compressed_table_size < 2 ^ 32 then
          let file1 := writeAt st.file (st.start_offset + table_offset)
            (u32le compressed_table_size ++ u32le table.length
              ++ compressed_table)
          .ok (table_offset, { st with file := file1, chunks := chunks1 })
        else .error .tryFromIntError
      else .error .tryFromIntError

/-- `write_grf_header`: magic, fixed key, `u32` table offset, seed 0,
`i32` obfuscated count, packed version. -/
def grfHeaderBytes (version file_table_offset : Nat) (v_file_count : Nat) :
    List Nat :=
  GRF_HEADER_MAGIC_B ++ GRF_FIXED_KEY ++ u32le file_table_offset
    ++ u32le 0 ++ u32le v_file_count ++ u32le version

/-- The message of `finish` for an unsupported major version. -/
def wrongVersionMsg : String := "Wrong file format version"

/-- `GrfArchiveBuilder::finish`: idempotent; `v_file_count` is
`entries.len() + 7` (an `i32`); only major version 2 can be written —
version 1 hits `unimplemented!()` (modelled as a serialization error). -/
def grfFinish (deflate : List Nat → List Nat) (st : GrfBuilderState) :
    Except GrufErr GrfBuilderState :=
  if st.finished then .ok st
  else
    let st0 := { st with finished := true }
    if st0.entries.length + 7 < 2 ^ 31 then
      match st0.version_major with
      | 2 =>
        match grfWriteTable200 deflate st0 with
        | .error e => .error e
        | .ok (table_offset, st1) =>
          let header := grfHeaderBytes
            ((st1.version_major <<< 8) ||| st1.version_minor)
            ((table_offset - GRF_HEADER_SIZE) % 2 ^ 32)
            (st1.entries.length + 7)
          .ok { st1 with file := writeAt st1.file st1.start_offset header }
      | 1 => .error (.serializationError wrongVersionMsg)
      | _ => .error (.serializationError wrongVersionMsg)
    else .error .tryFromIntError

/-- The whole C5 build pipeline: create a v2.0 GRF, `add_file` every pair
in order, `finish`, and surface the writer's bytes. -/
def grfBuildArchive (deflate : List Nat → List Nat)
    (files : List (String × List Nat)) : Except GrufErr (List Nat) :=
  match files.foldlM (fun st pb => grfAddFile deflate st pb.1 pb.2)
      (grfBuilderCreate 2 0) with
  | .error e => .error e
  | .ok st1 =>
    match grfFinish deflate st1 with
    | .error e => .error e
    | .ok st2 => .ok st2.file

/-- `GrfFileEncryption` from reader.rs. -/
inductive GrfFileEncryption where
  | Unencrypted
  | Encrypted (cycle : Nat)
  deriving Repr, DecidableEq

/-- `GrfFileEntry` from reader.rs. -/
structure GrfFileEntryM where
  relative_path : String
  size_compressed : Nat
  size_compressed_aligned : Nat
  size : Nat
  entry_type : Nat
  offset : Nat
  encryption : GrfFileEncryption
  deriving Repr, DecidableEq

/-- `GrfHeader` from reader.rs. -/
structure GrfHeaderM where
  key : List Nat
  file_table_offset : Nat
  seed : Int
  file_count : Nat
  version_major : Nat
  version_minor : Nat
  deriving Repr, DecidableEq

/-- Rust `as usize` on an `i32` value (64-bit sign extension then
reinterpretation). -/
def intToUsize (i : Int) : Nat := (i % (2 ^ 64 : Int)).toNat

/-- `parse_grf_header`: recovers the true file count as
`(v_files_count - seed - 7) as usize` and splits the packed version. -/
def parseGrfHeader (input : List Nat) : Option (GrfHeaderM × List Nat) :=
  match readTag GRF_HEADER_MAGIC_B input with
  | none => none
  | some r0 =>
    match readTake 14 r0 with
    | none => none
    | some (key, r1) =>
      match readU32le r1 with
      | none => none
      | some (file_table_offset, r2) =>
        match readI32le r2 with
        | none => none
        | some (seed, r3) =>
          match readI32le r3 with
          | none => none
          | some (v_files_count, r4) =>
            match readU32le r4 with
            | none => none
            | some (version, r5) =>
              some (⟨key, file_table_offset, seed,
                intToUsize (v_files_count - seed - 7),
                (version >>> 8) &&& 0xFF, version &&& 0xFF⟩, r5)

/-- `fold_many_m_n!(m, mx, parser)`'s collection phase: run the parser at
most `mx` times, stopping at the first failure. -/
def foldManyMN {α : Type} (mx : Nat)
    (p : List Nat → Option (α × List Nat)) (input : List Nat) :
    List α × List Nat :=
  match mx with
  | 0 => ([], input)
  | mx1 + 1 =>
    match p input with
    | none => ([], input)
    | some (a, rest) =>
      let r := foldManyMN mx1 p rest
      (a :: r.1, r.2)

/-- `parse_grf_file_entry_200`: a path of non-NUL bytes (decoded from
Windows-1252), the NUL terminator, then the five packed fields; the payload
offset is stored shifted by `GRF_HEADER_SIZE`. -/
def parseGrfFileEntry200 (input : List Nat) :
    Option (GrfFileEntryM × List Nat) :=
  let path_bytes := input.takeWhile (fun b => b ≠ 0)
  let r0 := input.drop path_bytes.length
  match r0 with
  | 0 :: r1 =>
    match readU32le r1 with
    | none => none
    | some (size_compressed, r2) =>
      match readU32le r2 with
      | none => none
      | some (size_compressed_aligned, r3) =>
        match readU32le r3 with
        | none => none
        | some (size, r4) =>
          match readU8 r4 with
          | none => none
          | some (entry_type, r5) =>
            match readU32le r5 with
            | none => none
            | some (offset, r6) =>
              some (⟨string_from_win_1252 path_bytes, size_compressed,
                size_compressed_aligned, size, entry_type,
                GRF_HEADER_SIZE + offset, .Unencrypted⟩, r6)
  | _ => none

/-- `parse_grf_file_entries_200`: `fold_many_m_n!(1, files_count, ...)`
into a map keyed by path (later records overwrite). -/
def parseGrfFileEntries200 (files_count : Nat) (input : List Nat) :
    Option (List (String × GrfFileEntryM) × List Nat) :=
  let r := foldManyMN files_count parseGrfFileEntry200 input
  if 1 ≤ r.1.length then
    some (r.1.foldl (fun acc item =>
      assocUpdate item.relative_path item acc) [], r.2)
  else none

/-- `digit_count` from reader.rs (naive digit count, via fuel). -/
def digitCountGo (n : Nat) : Nat → Nat → Nat → Nat
  | 0, _, result => result
  | fuel + 1, acc, result =>
    if n < acc then result else digitCountGo n fuel (acc * 10) (result + 1)

/-- `digit_count(n)`. -/
def digit_count (n : Nat) : Nat := digitCountGo n (n + 1) 10 1

/-- `determine_file_encryption_101`: cycle 0 for short names and the four
special extensions, otherwise the digit count of the compressed size
(string length approximated by the decoded character count). -/
def determine_file_encryption_101 (file_name : String)
    (size_compressed : Nat) : GrfFileEncryption :=
  let chars := file_name.data
  if chars.length < 4 then .Encrypted 0
  else
    let ext := chars.drop (chars.length - 4)
    if ext = [Char.ofNat 46, Char.ofNat 103, Char.ofNat 110, Char.ofNat 100]
      ∨ ext = [Char.ofNat 46, Char.ofNat 103, Char.ofNat 97, Char.ofNat 116]
      ∨ ext = [Char.ofNat 46, Char.ofNat 97, Char.ofNat 99, Char.ofNat 116]
      ∨ ext = [Char.ofNat 46, Char.ofNat 115, Char.ofNat 116, Char.ofNat 114]
    then .Encrypted 0
    else .Encrypted (digit_count size_compressed)

/-- `parse_grf_file_entry_101`: `u32` padded path size, 2 NULs, the
scrambled path (`path_size_padded - 6` bytes, de-scrambled via
`decrypt_file_name`), 4 NULs, then the five packed fields with the
encrypted size derivations (`u32` subtractions wrap). -/
def parseGrfFileEntry101 (input : List Nat) :
    Option (GrfFileEntryM × List Nat) :=
  match readU32le input with
  | none => none
  | some (path_size_padded, r0) =>
    if path_size_padded < 6 then none
    else
      match readTake 2 r0 with
      | none => none
      | some (_, r1) =>
        match readTake (path_size_padded - 6) r1 with
        | none => none
        | some (scrambled, r2) =>
          let relative_path :=
            string_from_win_1252 (decrypt_file_name scrambled)
          match readTake 4 r2 with
          | none => none
          | some (_, r3) =>
            match readU32le r3 with
            | none => none
            | some (size_tot_enc, r4) =>
              match readU32le r4 with
              | none => none
              | some (size_compressed_aligned_enc, r5) =>
                match readU32le r5 with
                | none => none
                | some (size, r6) =>
                  match readU8 r6 with
                  | none => none
                  | some (entry_type, r7) =>
                    match readU32le r7 with
                    | none => none
                    | some (offset, r8) =>
                      let size_compressed :=
                        (size_tot_enc + 2 ^ 33 - size - 0x02CB) % 2 ^ 32
                      some (⟨relative_path, size_compressed,
                        (size_compressed_aligned_enc + 2 ^ 32 - 0x92CB)
                          % 2 ^ 32,
                        size, entry_type, GRF_HEADER_SIZE + offset,
                        determine_file_encryption_101 relative_path
                          size_compressed⟩, r8)

/-- `parse_grf_file_entries_101`:
`fold_many_m_n!(1, files_count - 1, ...)` — bounded one below the declared
count. -/
def parseGrfFileEntries101 (files_count : Nat) (input : List Nat) :
    Option (List (String × GrfFileEntryM) × List Nat) :=
  let r := foldManyMN (files_count - 1) parseGrfFileEntry101 input
  if 1 ≤ r.1.length then
    some (r.1.foldl (fun acc item =>
      assocUpdate item.relative_path item acc) [], r.2)
  else none

/-- A parsed GRF archive with its backing bytes. -/
structure GrfArchiveM where
  data : List Nat
  header : GrfHeaderM
  entries : List (String × GrfFileEntryM)
  deriving Repr, DecidableEq

/-- The reader's parse-failure messages. -/
def grfHeaderErrMsg : String := "Failed to parse archive (header)"

/-- Table-info failure message. -/
def grfTableInfoErrMsg : String := "Failed to parse archive (table info)"

/-- Table failure message. -/
def grfTableErrMsg : String := "Failed to parse file table"

/-- Table decompression failure message. -/
def grfDecompressErrMsg : String := "Failed to decompress file table"

/-- Unsupported version message. -/
def grfUnsupportedMsg : String := "Unsupported archive version"

/-- `GrfArchive::open` on the file's bytes: read exactly
`GRF_HEADER_SIZE` bytes, parse the header, then dispatch on the major
version.  For v2, seek to `GRF_HEADER_SIZE + file_table_offset`, read the
two `u32` lengths, take the compressed table, inflate and parse it.  For
v1.1–1.3 the table is parsed out of what remains of the 46-byte header
buffer after the header — which is empty, so `table_size == 0` always
takes the empty branch. -/
def grfOpen (inflate : List Nat → Option (List Nat))
    (fileBytes : List Nat) : Except GrufErr GrfArchiveM :=
  if GRF_HEADER_SIZE ≤ fileBytes.length then
    match parseGrfHeader (fileBytes.take GRF_HEADER_SIZE) with
    | none => .error (.parsingError grfHeaderErrMsg)
    | some (header, parser_output) =>
      if header.version_major = 2 then
        let pos := GRF_HEADER_SIZE + header.file_table_offset
        if pos + 8 ≤ fileBytes.length then
          let info := (fileBytes.drop pos).take 8
          match readU32le info with
          | none => .error (.parsingError grfTableInfoErrMsg)
          | some (table_size_compressed, infoRest) =>
            match readU32le infoRest with
            | none => .error (.parsingError grfTableInfoErrMsg)
            | some (table_size, _) =>
              if table_size_compressed = 0 ∨ table_size = 0 then
                .ok ⟨fileBytes, header, []⟩
              else
                let compressed_table :=
                  (fileBytes.drop (pos + 8)).take table_size_compressed
                match inflate compressed_table with
                | none => .error (.parsingError grfDecompressErrMsg)
                | some table =>
                  match parseGrfFileEntries200 header.file_count table with
                  | none => .error (.parsingError grfTableErrMsg)
                  | some (entries, _) => .ok ⟨fileBytes, header, entries⟩
        else .error .ioError
      else if header.version_major = 1 then
        if header.version_minor < 1 ∨ 3 < header.version_minor then
          .error (.parsingError grfUnsupportedMsg)
        else
          let table_size := parser_output.length
          if table_size = 0 then .ok ⟨fileBytes, header, []⟩
          else
            match parseGrfFileEntries101 header.file_count
                (parser_output.drop header.file_table_offset) with
            | none => .error (.parsingError grfTableErrMsg)
            | some (entries, _) => .ok ⟨fileBytes, header, entries⟩
      else .error (.parsingError grfUnsupportedMsg)
  else .error .ioError

/-- `GrfArchive::read_file_content`: look up, empty for `size == 0`, read
`size_compressed_aligned` bytes at the entry's offset, content-decrypt a
v1 entry, inflate and demand the decompressed length equal `size`. -/
def grfReadFileContent (inflate : List Nat → Option (List Nat))
    (a : GrfArchiveM) (file_path : String) : Except GrufErr (List Nat) :=
  match assocLookup file_path a.entries with
  | none => .error .entryNotFound
  | some e =>
    if e.size = 0 then .ok []
    else
      let content := (a.data.drop e.offset).take e.size_compressed_aligned
      let content1 :=
        match e.encryption with
        | .Unencrypted => content
        | .Encrypted cycle => decrypt_file_content content cycle
      match inflate content1 with
      | none => .error .ioError
      | some dec =>
        if dec.length = e.size then .ok dec
        else .error (.parsingError sizeMismatchMsg)

/-- `GrfArchive::file_count` returns the header's (decoded) count. -/
def grfFileCount (a : GrfArchiveM) : Nat := a.header.file_count

/-- The entries the builder holds after adding `files` in order starting
at write position `off`: consecutive offsets, sizes from the data and its
compression. -/
def plannedEntries (deflate : List Nat → List Nat) (off : Nat) :
    List (String × List Nat) → List (String × GenericFileEntry)
  | [] => []
  | (p, d) :: rest =>
    (p, ⟨off, d.length, (deflate d).length⟩)
      :: plannedEntries deflate (off + (deflate d).length) rest

/-- The total compressed payload length of a build. -/
def comSum (deflate : List Nat → List Nat)
    (files : List (String × List Nat)) : Nat :=
  ((files.map (fun pb => deflate pb.2)).map List.length).sum

/-- The Windows-1252 bytes of a path (its encoding when encodable). -/
def win1252Bytes (s : String) : List Nat :=
  match serialize_to_win1252 s with
  | .ok b => b
  | .error _ => []

/-- One serialized v2.0 table record. -/
def serGrfRecord (pb : List Nat) (e : GenericFileEntry) : List Nat :=
  pb ++ [0] ++ u32le e.size_compressed ++ u32le e.size_compressed
    ++ u32le e.size ++ [1] ++ u32le ((e.offset - GRF_HEADER_SIZE) % 2 ^ 32)

/-- The file table a build of `files` serializes. -/
def tableBytesOf (deflate : List Nat → List Nat)
    (files : List (String × List Nat)) : List Nat :=
  ((plannedEntries deflate GRF_HEADER_SIZE files).map
    (fun pe => serGrfRecord (win1252Bytes pe.1) pe.2)).flatten

/-- The reader-side entries a build of `files` (bytes at consecutive
offsets from `off`) parses back. -/
def finalEntries (deflate : List Nat → List Nat) (off : Nat) :
    List (String × List Nat) → List (String × GrfFileEntryM)
  | [] => []
  | (p, d) :: rest =>
    (p, ⟨p, (deflate d).length, (deflate d).length, d.length, 1, off,
      .Unencrypted⟩)
      :: finalEntries deflate (off + (deflate d).length) rest

/-- What `parse_grf_file_entry_200` recovers from one serialized record of
a builder entry. -/
def parsed200 (pe : String × GenericFileEntry) : GrfFileEntryM :=
  ⟨string_from_win_1252 (win1252Bytes pe.1), pe.2.size_compressed,
    pe.2.size_compressed, pe.2.size, 1,
    GRF_HEADER_SIZE + ((pe.2.offset - GRF_HEADER_SIZE) % 2 ^ 32),
    .Unencrypted⟩

/-- The identity compressor standing in for zlib in concrete witnesses. -/
def deflId : List Nat → List Nat := fun l => l

/-- A path consisting of `a` followed by a NUL character. -/
def nulPath : String := String.mk [Char.ofNat 97, Char.ofNat 0]

/-- The bytes a v2.0 build of `files` produces. -/
def grfOutBytes (deflate : List Nat → List Nat)
    (files : List (String × List Nat)) : List Nat :=
  grfHeaderBytes ((2 <<< 8) ||| 0) (comSum deflate files % 2 ^ 32)
      (files.length + 7)
    ++ ((files.map (fun pb => deflate pb.2)).flatten
    ++ (u32le (deflate (tableBytesOf deflate files)).length
    ++ u32le (tableBytesOf deflate files).length
    ++ deflate (tableBytesOf deflate files)))

/-- A concrete well-formed v1 table record: padded path size 8, two NULs,
a two-byte scrambled path, four NULs, then the packed size/type/offset
fields. -/
def v1Rec : List Nat :=
  [8, 0, 0, 0, 0, 0, 65, 66, 0, 0, 0, 0, 232, 3, 0, 0, 0, 0, 0, 0,
   5, 0, 0, 0, 1, 0, 0, 0, 0]

/-! ## Theorems -/

/-- When the entry exists, `read_file_content` never reports
`EntryNotFound`: its other failure modes are the i/o error of inflation or
the size-mismatch parsing error. -/
theorem thorReadFileContent_ne_entryNotFound
    (inflate : List Nat → Option (List Nat)) (a : ThorArchM) (p : String)
    (e : ThorEntryM) (he : assocLookup p a.entries = some e) :
    thorReadFileContent inflate a p ≠ .error .entryNotFound := by
  simp only [thorReadFileContent, he]
  by_cases hz : e.size_compressed = 0
  · simp [hz]
  · simp only [if_neg hz]
    rcases inflate ((a.data.drop e.offset).take e.size_compressed) with _ | dec
    · simp
    · by_cases hlen : dec.length = e.size <;> simp [hlen]

/-- The manifest loop of `is_valid` always returns `Ok`. -/
theorem thorIsValidGo_isOk (inflate : List Nat → Option (List Nat))
    (a : ThorArchM) (l : List (String × Nat)) :
    ∃ b, thorIsValidGo inflate a l = .ok b := by
  induction l with
  | nil => exact ⟨true, rfl⟩
  | cons ph rest ih =>
    rcases ph with ⟨p, h⟩
    simp only [thorIsValidGo]
    rcases hrc : thorReadFileContent inflate a p with e | c
    · exact ⟨false, rfl⟩
    · by_cases hcrc : crc32_ieee c = h
      · simpa [hcrc] using ih
      · exact ⟨false, by simp [hcrc]⟩

/-- The manifest loop returns `Ok(true)` exactly when every referenced
entry reads and decompresses successfully with a matching CRC32. -/
theorem thorIsValidGo_true_iff (inflate : List Nat → Option (List Nat))
    (a : ThorArchM) (l : List (String × Nat)) :
    thorIsValidGo inflate a l = .ok true ↔
      ∀ ph ∈ l, ∃ c, thorReadFileContent inflate a ph.1 = .ok c ∧
        crc32_ieee c = ph.2 := by
  induction l with
  | nil => simp [thorIsValidGo]
  | cons ph rest ih =>
    rcases ph with ⟨p, h⟩
    rcases hrc : thorReadFileContent inflate a p with e | c
    · simp only [thorIsValidGo, hrc]
      constructor
      · intro hfalse; simp at hfalse
      · intro hall
        obtain ⟨c, hc, _⟩ := hall (p, h) (List.mem_cons_self _ _)
        rw [hrc] at hc; cases hc
    · simp only [thorIsValidGo, hrc]
      by_cases hcrc : crc32_ieee c = h
      · rw [if_pos hcrc, ih]
        constructor
        · intro hrest ph1 hph1
          rcases List.mem_cons.mp hph1 with rfl | hmem
          · exact ⟨c, hrc, hcrc⟩
          · exact hrest ph1 hmem
        · intro hall ph1 hph1
          exact hall ph1 (List.mem_cons_of_mem _ hph1)
      · rw [if_neg hcrc]
        constructor
        · intro hfalse; simp at hfalse
        · intro hall
          obtain ⟨c1, hc1, hcrc1⟩ := hall (p, h) (List.mem_cons_self _ _)
          rw [hrc] at hc1
          cases hc1
          exact absurd hcrc1 hcrc

/-- C9: `is_valid()` returns `EntryNotFound` exactly when the archive has
no `data.integrity` entry; otherwise, once the manifest has been read, it
parses the `path=0xHEX` lines (malformed lines ignored by
`parse_data_integrity_info`) and returns `Ok(true)` if and only if every
referenced entry reads and decompresses successfully with a matching
CRC32-IEEE — never an error, at worst `Ok(false)`. -/
theorem thor_is_valid_spec (inflate : List Nat → Option (List Nat))
    (a : ThorArchM) :
    (thorIsValid inflate a = .error .entryNotFound ↔
      assocLookup INTEGRITY_FILE_NAME a.entries = none) ∧
    (∀ bytes,
      thorReadFileContent inflate a INTEGRITY_FILE_NAME = .ok bytes →
      ((thorIsValid inflate a = .ok true ↔
        ∀ ph ∈ parse_data_integrity_info (string_from_win_1252 bytes),
          ∃ c, thorReadFileContent inflate a ph.1 = .ok c ∧
            crc32_ieee c = ph.2) ∧
      (thorIsValid inflate a = .ok true ∨
        thorIsValid inflate a = .ok false))) := by
  constructor
  · constructor
    · intro hval
      rcases hlook : assocLookup INTEGRITY_FILE_NAME a.entries with _ | e
      · rfl
      · exfalso
        rcases hrc : thorReadFileContent inflate a INTEGRITY_FILE_NAME
          with e1 | bytes
        · have hne := thorReadFileContent_ne_entryNotFound inflate a
            INTEGRITY_FILE_NAME e hlook
          rw [hrc] at hne
          simp only [thorIsValid, hrc] at hval
          cases hval
          exact hne rfl
        · simp only [thorIsValid, hrc] at hval
          obtain ⟨b, hb⟩ := thorIsValidGo_isOk inflate a
            (parse_data_integrity_info (string_from_win_1252 bytes))
          rw [hb] at hval
          cases hval
    · intro hlook
      simp [thorIsValid, thorReadFileContent, hlook]
  · intro bytes hread
    have hval : thorIsValid inflate a =
        thorIsValidGo inflate a
          (parse_data_integrity_info (string_from_win_1252 bytes)) := by
      simp [thorIsValid, hread]
    refine ⟨?_, ?_⟩
    · rw [hval]
      exact thorIsValidGo_true_iff inflate a _
    · rw [hval]
      obtain ⟨b, hb⟩ := thorIsValidGo_isOk inflate a
        (parse_data_integrity_info (string_from_win_1252 bytes))
      cases b
      · exact Or.inr hb
      · exact Or.inl hb

/-- Witness for the C9 specification at a concrete archive whose manifest
references the empty entry `a` with CRC 0. -/
theorem thor_is_valid_spec_witness :
    thorReadFileContent inflId thorWitnessArchive INTEGRITY_FILE_NAME =
      .ok thorWitnessManifest ∧
    thorIsValid inflId thorWitnessArchive = .ok true :=
  ⟨by decide,
    ((thor_is_valid_spec inflId thorWitnessArchive).2 thorWitnessManifest
      (by decide)).1.mpr
      (by
        intro ph hph
        have hparse : parse_data_integrity_info
            (string_from_win_1252 thorWitnessManifest) = [(pathA, 0)] := by
          decide
        rw [hparse] at hph
        simp only [List.mem_singleton] at hph
        subst hph
        exact ⟨[], by decide, by decide⟩)⟩

/-- Every block produced by `blocksOf8` has length 8. -/
theorem blocksOf8_mem_length (l b : List Nat) (hb : b ∈ blocksOf8 l) :
    b.length = 8 := by
  simp only [blocksOf8, List.mem_map, List.mem_range] at hb
  obtain ⟨i, hi, rfl⟩ := hb
  have h8 : 8 * (i + 1) ≤ l.length := by
    calc 8 * (i + 1) ≤ 8 * (l.length / 8) := by omega
    _ ≤ l.length := by
      have := Nat.div_mul_le_self l.length 8
      omega
  simp [List.length_take, List.length_drop]
  omega

/-- The `n`-th block of `blocksOf8`. -/
theorem blocksOf8_getElem? (l : List Nat) (n : Nat) :
    (blocksOf8 l)[n]? =
      if n < l.length / 8 then some ((l.drop (8 * n)).take 8) else none := by
  by_cases h : n < l.length / 8
  · simp [blocksOf8, List.getElem?_map, List.getElem?_range h, h]
  · simp only [blocksOf8, if_neg h]
    apply List.getElem?_eq_none
    simp [List.length_map, List.length_range]
    omega

/-- `blocksOf8` yields `len / 8` blocks. -/
theorem blocksOf8_length (l : List Nat) :
    (blocksOf8 l).length = l.length / 8 := by
  simp [blocksOf8]

/-- The loop of `grf_decrypt_shuffled` rewrites block `n` according to
`shuffledBlockStep` at index `i + n` with counter `jCounterFrom uc i j n`. -/
theorem grfShuffledGo_getElem? (keys : List Nat) (uc : Nat)
    (bs : List (List Nat)) :
    ∀ (n i j : Nat),
      (grfShuffledGo keys uc i j bs)[n]? =
        (bs[n]?).map (shuffledBlockStep keys uc (i + n) (jCounterFrom uc i j n)) := by
  induction bs with
  | nil => intro n i j; simp [grfShuffledGo]
  | cons b rest ih =>
    intro n i j
    by_cases hc : i < 20 ∨ i % uc = 0
    · cases n with
      | zero => simp [grfShuffledGo, hc, shuffledBlockStep, jCounterFrom]
      | succ n =>
        have hstep : stepJ uc i j = j := by simp [stepJ, hc]
        simp only [grfShuffledGo, if_pos hc, List.getElem?_cons_succ, ih,
          jCounterFrom, hstep]
        have : i + 1 + n = i + (n + 1) := by omega
        rw [this]
    · by_cases hj : j = 7
      · cases n with
        | zero => simp [grfShuffledGo, hc, hj, shuffledBlockStep, jCounterFrom]
        | succ n =>
          have hstep : stepJ uc i j = 1 := by simp [stepJ, hc, hj]
          simp only [grfShuffledGo, if_neg hc, if_pos hj,
            List.getElem?_cons_succ, ih, jCounterFrom, hstep]
          have : i + 1 + n = i + (n + 1) := by omega
          rw [this]
      · cases n with
        | zero => simp [grfShuffledGo, hc, hj, shuffledBlockStep, jCounterFrom]
        | succ n =>
          have hstep : stepJ uc i j = j + 1 := by simp [stepJ, hc, hj]
          simp only [grfShuffledGo, if_neg hc, if_neg hj,
            List.getElem?_cons_succ, ih, jCounterFrom, hstep]
          have : i + 1 + n = i + (n + 1) := by omega
          rw [this]

/-- Indexing the flattening of a list of 8-byte blocks. -/
theorem flatten_getElem?_blocks (bls : List (List Nat))
    (h : ∀ b ∈ bls, b.length = 8) :
    ∀ (n k : Nat), k < 8 →
      bls.flatten[8 * n + k]? = (bls[n]?).bind (fun b => b[k]?) := by
  induction bls with
  | nil => intro n k _; simp
  | cons b rest ih =>
    intro n k hk
    have hb : b.length = 8 := h b (by simp)
    have hrest : ∀ c ∈ rest, c.length = 8 := fun c hc => h c (by simp [hc])
    cases n with
    | zero =>
      simp only [List.flatten_cons, Nat.mul_zero, Nat.zero_add,
        List.getElem?_append, List.getElem?_cons_zero, Option.bind_some,
        Option.some_bind]
      rw [if_pos (by omega)]
    | succ n =>
      simp only [List.flatten_cons, List.getElem?_append,
        List.getElem?_cons_succ]
      rw [if_neg (by omega)]
      have harith : 8 * (n + 1) + k - b.length = 8 * n + k := by omega
      rw [harith, ih hrest n k hk]

/-- `shuffledBlockStep` preserves the block length 8. -/
theorem shuffledBlockStep_length (keys : List Nat) (uc i j : Nat)
    (b : List Nat) (hb : b.length = 8) :
    (shuffledBlockStep keys uc i j b).length = 8 := by
  by_cases hc : i < 20 ∨ i % uc = 0 <;> by_cases hj : j = 7 <;>
    simp [shuffledBlockStep, hc, hj, desDecryptBlockBytes, u64_to_be_bytes,
      shuffleBlock, hb]

/-- Flattening blocks of length 8 gives `8 * count` bytes. -/
theorem flatten_length_blocks (bls : List (List Nat))
    (h : ∀ b ∈ bls, b.length = 8) :
    bls.flatten.length = 8 * bls.length := by
  induction bls with
  | nil => simp
  | cons b rest ih =>
    have hb : b.length = 8 := h b (by simp)
    have hrest : ∀ c ∈ rest, c.length = 8 := fun c hc => h c (by simp [hc])
    simp [List.flatten_cons, hb, ih hrest]
    omega

/-- The loop of `grf_decrypt_shuffled` preserves the number of blocks. -/
theorem grfShuffledGo_length (keys : List Nat) (uc : Nat)
    (bs : List (List Nat)) :
    ∀ (i j : Nat), (grfShuffledGo keys uc i j bs).length = bs.length := by
  induction bs with
  | nil => intro i j; simp [grfShuffledGo]
  | cons b rest ih =>
    intro i j
    by_cases hc : i < 20 ∨ i % uc = 0
    · simp [grfShuffledGo, hc, ih]
    · by_cases hj : j = 7 <;> simp [grfShuffledGo, hc, hj, ih]

/-- Blocks coming out of the loop all have length 8 when the input
blocks do. -/
theorem grfShuffledGo_mem_length (keys : List Nat) (uc : Nat)
    (bs : List (List Nat)) :
    ∀ (i j : Nat) (hbs : ∀ b ∈ bs, b.length = 8),
      ∀ c ∈ grfShuffledGo keys uc i j bs, c.length = 8 := by
  induction bs with
  | nil => intro i j _ c hc; simp [grfShuffledGo] at hc
  | cons b rest ih =>
    intro i j hbs c hc
    have hb : b.length = 8 := hbs b (by simp)
    have hrest : ∀ x ∈ rest, x.length = 8 := fun x hx => hbs x (by simp [hx])
    by_cases hcond : i < 20 ∨ i % uc = 0
    · simp only [grfShuffledGo, if_pos hcond, List.mem_cons] at hc
      rcases hc with rfl | hc
      · simp [desDecryptBlockBytes, u64_to_be_bytes]
      · exact ih (i + 1) j hrest c hc
    · by_cases hj : j = 7
      · simp only [grfShuffledGo, if_neg hcond, if_pos hj, List.mem_cons] at hc
        rcases hc with rfl | hc
        · simp [shuffleBlock]
        · exact ih (i + 1) 1 hrest c hc
      · simp only [grfShuffledGo, if_neg hcond, if_neg hj, List.mem_cons] at hc
        rcases hc with rfl | hc
        · exact hb
        · exact ih (i + 1) (j + 1) hrest c hc

/-- `grf_decrypt_shuffled` preserves the buffer's length. -/
theorem grf_decrypt_shuffled_byte_length (key cycle : Nat)
    (buffer : List Nat) :
    (grf_decrypt_shuffled key cycle buffer).length = buffer.length := by
  have hmem := grfShuffledGo_mem_length (gen_keys key) (update_cycle cycle)
    (blocksOf8 buffer) 0 0 (blocksOf8_mem_length buffer)
  have hflat := flatten_length_blocks _ hmem
  have hgo := grfShuffledGo_length (gen_keys key) (update_cycle cycle)
    (blocksOf8 buffer) 0 0
  have hdiv := Nat.div_mul_le_self buffer.length 8
  simp only [grf_decrypt_shuffled, List.length_append, hflat, hgo,
    blocksOf8_length, List.length_drop]
  omega

/-- A byte of `grf_decrypt_shuffled` inside the processed region, through
the block decomposition. -/
theorem grf_decrypt_shuffled_getElem? (key cycle : Nat) (buffer : List Nat)
    (i k : Nat) (hk : k < 8) (hlen : 8 * i + 8 ≤ buffer.length) :
    (grf_decrypt_shuffled key cycle buffer)[8 * i + k]? =
      (shuffledBlockStep (gen_keys key) (update_cycle cycle) i
        (jCounter (update_cycle cycle) i)
        ((buffer.drop (8 * i)).take 8))[k]? := by
  have hmem := grfShuffledGo_mem_length (gen_keys key) (update_cycle cycle)
    (blocksOf8 buffer) 0 0 (blocksOf8_mem_length buffer)
  have hflat := flatten_length_blocks _ hmem
  have hgo := grfShuffledGo_length (gen_keys key) (update_cycle cycle)
    (blocksOf8 buffer) 0 0
  have hidiv : i < buffer.length / 8 := by
    have := Nat.div_mul_le_self buffer.length 8
    omega
  have hinflat : 8 * i + k <
      ((grfShuffledGo (gen_keys key) (update_cycle cycle) 0 0
        (blocksOf8 buffer)).flatten).length := by
    rw [hflat, hgo, blocksOf8_length]
    omega
  simp only [grf_decrypt_shuffled, List.getElem?_append, if_pos hinflat]
  rw [flatten_getElem?_blocks _ hmem i k hk,
    grfShuffledGo_getElem? (gen_keys key) (update_cycle cycle)
      (blocksOf8 buffer) i 0 0,
    blocksOf8_getElem?, if_pos hidiv]
  simp [jCounter]

/-- Reading inside an 8-byte window of a list. -/
theorem drop_take_getD (l : List Nat) (a m : Nat) (hm : m < 8)
    (h : a + 8 ≤ l.length) :
    ((l.drop a).take 8).getD m 0 = l.getD (a + m) 0 := by
  rw [List.getD_eq_getElem?_getD, List.getD_eq_getElem?_getD,
    List.getElem?_take, if_pos hm, List.getElem?_drop]

/-- `shuffleBlock` on the 8-byte window at `a` reads the window's bytes. -/
theorem shuffleBlock_drop_take (l : List Nat) (a : Nat)
    (h : a + 8 ≤ l.length) :
    shuffleBlock ((l.drop a).take 8) =
      [l.getD (a + 3) 0, l.getD (a + 4) 0, l.getD (a + 6) 0, l.getD a 0,
       l.getD (a + 1) 0, l.getD (a + 2) 0, l.getD (a + 5) 0,
       permute_byte (l.getD (a + 7) 0)] := by
  have h0 := drop_take_getD l a 0 (by omega) h
  have h1 := drop_take_getD l a 1 (by omega) h
  have h2 := drop_take_getD l a 2 (by omega) h
  have h3 := drop_take_getD l a 3 (by omega) h
  have h4 := drop_take_getD l a 4 (by omega) h
  have h5 := drop_take_getD l a 5 (by omega) h
  have h6 := drop_take_getD l a 6 (by omega) h
  have h7 := drop_take_getD l a 7 (by omega) h
  simp only [shuffleBlock, h0, h1, h2, h3, h4, h5, h6, h7, Nat.add_zero]

set_option maxRecDepth 100000 in
/-- C8 counterexample: in `grf_decrypt_shuffled(key = 0, cycle = 1)` on the
256-byte buffer `0, 1, ..., 255`, block 31 is a qualifying non-DES block
selected by the counter (`jCounter = 7`), yet the output byte at position 2
of the block is the input byte at position 6 (254), not the input byte at
position 5 (253) as the claim's permutation `3,4,5,0,1,2,6` demands (the
source comment in crypto/mod.rs documents imported layout `3450162`, i.e.
output positions 0..6 read input positions 3,4,6,0,1,2,5). -/
theorem grf_decrypt_shuffled_block_byte2_mismatch :
    (¬(31 < 20 ∨ 31 % update_cycle 1 = 0)) ∧
    jCounter (update_cycle 1) 31 = 7 ∧
    (grf_decrypt_shuffled 0 1 (List.range 256)).getD (8 * 31 + 2) 0 = 254 ∧
    (List.range 256).getD (8 * 31 + 5) 0 = 253 ∧
    (List.range 256).getD (8 * 31 + 6) 0 = 254 ∧
    (254 : Nat) ≠ 253 := by
  decide

/-- C8 (amended): in `grf_decrypt_shuffled`, a qualifying non-DES block
(`i ≥ 20` and `i % cycle' ≠ 0`) whose shuffle counter reads 7 has output
bytes 0..6 equal to input bytes 3, 4, 6, 0, 1, 2, 5 respectively and output
byte 7 equal to `permute_byte` of input byte 7; a qualifying block whose
counter is not 7 is left byte-for-byte unchanged. -/
theorem grf_decrypt_shuffled_qualifying_block (key cycle : Nat)
    (buffer : List Nat) (i : Nat)
    (hq : ¬(i < 20 ∨ i % update_cycle cycle = 0))
    (hlen : 8 * i + 8 ≤ buffer.length) :
    ((grf_decrypt_shuffled key cycle buffer).drop (8 * i)).take 8 =
      (if jCounter (update_cycle cycle) i = 7 then
        [buffer.getD (8 * i + 3) 0, buffer.getD (8 * i + 4) 0,
         buffer.getD (8 * i + 6) 0, buffer.getD (8 * i) 0,
         buffer.getD (8 * i + 1) 0, buffer.getD (8 * i + 2) 0,
         buffer.getD (8 * i + 5) 0,
         permute_byte (buffer.getD (8 * i + 7) 0)]
      else (buffer.drop (8 * i)).take 8) := by
  have hblock : ((buffer.drop (8 * i)).take 8).length = 8 := by
    simp [List.length_take, List.length_drop]
    omega
  have hstep8 := shuffledBlockStep_length (gen_keys key) (update_cycle cycle)
    i (jCounter (update_cycle cycle) i) _ hblock
  have hout := grf_decrypt_shuffled_byte_length key cycle buffer
  have hmain : ((grf_decrypt_shuffled key cycle buffer).drop (8 * i)).take 8
      = shuffledBlockStep (gen_keys key) (update_cycle cycle) i
          (jCounter (update_cycle cycle) i)
          ((buffer.drop (8 * i)).take 8) := by
    apply List.ext_getElem?
    intro n
    by_cases hn : n < 8
    · rw [List.getElem?_take, if_pos hn, List.getElem?_drop,
        grf_decrypt_shuffled_getElem? key cycle buffer i n hn hlen]
    · rw [List.getElem?_eq_none (l := List.take 8 _) (by
        simp only [List.length_take]
        omega)]
      rw [List.getElem?_eq_none (by rw [hstep8]; omega)]
  rw [hmain]
  simp only [shuffledBlockStep, if_neg hq]
  by_cases hj : jCounter (update_cycle cycle) i = 7
  · rw [if_pos hj, if_pos hj, shuffleBlock_drop_take buffer (8 * i) hlen]
  · rw [if_neg hj, if_neg hj]

set_option maxRecDepth 100000 in
/-- Witness for the amended C8 theorem at buffer `0, 1, ..., 255`, cycle 1,
block 31 (a shuffled block). -/
theorem grf_decrypt_shuffled_qualifying_block_witness :
    ((¬(31 < 20 ∨ 31 % update_cycle 1 = 0)) ∧
      8 * 31 + 8 ≤ (List.range 256).length) ∧
    ((grf_decrypt_shuffled 0 1 (List.range 256)).drop (8 * 31)).take 8 =
      (if jCounter (update_cycle 1) 31 = 7 then
        [(List.range 256).getD (8 * 31 + 3) 0,
         (List.range 256).getD (8 * 31 + 4) 0,
         (List.range 256).getD (8 * 31 + 6) 0,
         (List.range 256).getD (8 * 31) 0,
         (List.range 256).getD (8 * 31 + 1) 0,
         (List.range 256).getD (8 * 31 + 2) 0,
         (List.range 256).getD (8 * 31 + 5) 0,
         permute_byte ((List.range 256).getD (8 * 31 + 7) 0)]
      else ((List.range 256).drop (8 * 31)).take 8) :=
  ⟨⟨by decide, by decide⟩,
    grf_decrypt_shuffled_qualifying_block 0 1 (List.range 256) 31
      (by decide) (by decide)⟩

/-- `mapRemove` removes exactly the value `mapLookup` finds. -/
theorem mapRemove_fst_eq_mapLookup (key : Nat) (l : List (Nat × Nat)) :
    (mapRemove key l).1 = mapLookup key l := by
  induction l with
  | nil => rfl
  | cons y ys ih =>
    simp only [mapRemove, mapLookup]
    by_cases h : key = y.1 <;> simp [h, ih]

/-- C1: the claim states that when a freed region (after left-coalescing) ends
exactly at `end_offset`, the region is dropped and NOT inserted into the
free-chunk map.  The code (dyn_alloc.rs line 158) performs the insert
unconditionally: after `alloc_chunk(1)` from a fresh list and
`free_chunk(46, 1)`, the resulting state has `end_offset = 46` but still
carries a free chunk at offset 46 in both `chunks` and `sizes` — a free chunk
at the new `end_offset` exists afterwards, contradicting the claim. -/
theorem free_chunk_at_end_still_inserts_region :
    ∃ st : AvailableChunkList,
      (do
        let r1 ← AvailableChunkList.new.allocChunk 1
        r1.2.freeChunk 46 1 : Except GrufErr AvailableChunkList) = .ok st ∧
      st.end_offset = 46 ∧
      mapLookup 46 st.chunks = some 1 ∧
      (1, 46) ∈ st.sizes :=
  ⟨⟨46, [(1, 46)], [(46, 1)]⟩, by decide⟩

/-- C2: the coalescing invariant fails.  The consistent call sequence
`alloc(1) = 46`, `alloc(1) = 47`, `free(47, 1)`, `free(46, 1)` from a fresh
`AvailableChunkList` leaves two distinct adjacent free chunks `(46, 1)` and
`(47, 1)` with `46 + 1 = 47`, because `free_chunk` inserts the freed region
even when it was merged into `end_offset`. -/
theorem free_chunks_can_become_adjacent :
    ∃ st : AvailableChunkList,
      (do
        let r1 ← AvailableChunkList.new.allocChunk 1
        let r2 ← r1.2.allocChunk 1
        let st3 ← r2.2.freeChunk 47 1
        st3.freeChunk 46 1 : Except GrufErr AvailableChunkList) = .ok st ∧
      (46, 1) ∈ st.chunks ∧ (47, 1) ∈ st.chunks ∧ 46 + 1 = 47 :=
  ⟨⟨46, [(1, 46), (1, 47)], [(46, 1), (47, 1)]⟩, by decide⟩

/-- C3: `alloc_chunk` can return an offset overlapping a live allocation.
From a fresh list, the consistent sequence `alloc(1) = 46`, `free(46, 1)`,
`alloc(1) = 46`, `alloc(1) = 46` hands out offset 46 twice in a row with no
intervening free: the intervals `[46, 47)` of the third and fourth calls
overlap, refuting the claim. -/
theorem alloc_chunk_can_overlap_live_allocation :
    ∃ st : AvailableChunkList,
      (do
        let r1 ← AvailableChunkList.new.allocChunk 1
        let st2 ← r1.2.freeChunk 46 1
        let r3 ← st2.allocChunk 1
        let r4 ← r3.2.allocChunk 1
        pure (r1.1, r3.1, r4.1, r4.2) :
          Except GrufErr (Nat × Nat × Nat × AvailableChunkList))
        = .ok (46, 46, 46, st) ∧
      max 46 46 < min (46 + 1) (46 + 1) :=
  ⟨⟨47, [], []⟩, by decide⟩

/-- C7 counterexample: `realloc_chunk` does NOT always return the same offset
when `new_size ≤ old_size`.  After `alloc(10) = 46`, `alloc(64) = 56`,
`alloc(1) = 120`, `free(46, 10)`, the call `realloc_chunk(56, 64, 5)` (with
`5 ≤ 64`) moves the region: it returns 46, not 56, because there is no free
right-neighbour chunk at `56 + 64` and the fallback `free` + `alloc` lands on
the left-merged free chunk at 46. -/
theorem realloc_chunk_can_move_when_shrinking :
    (do
      let r1 ← AvailableChunkList.new.allocChunk 10
      let r2 ← r1.2.allocChunk 64
      let r3 ← r2.2.allocChunk 1
      let st4 ← r3.2.freeChunk 46 10
      let r5 ← st4.reallocChunk 56 64 5
      pure (r2.1, r5.1) : Except GrufErr (Nat × Nat)) = .ok (56, 46) ∧
    5 ≤ 64 ∧ (46 : Nat) ≠ 56 := by
  decide

/-- C7 (amended): `realloc_chunk(offset, size, new_size)` returns the same
offset when the region abuts `end_offset` (case a), or when a free chunk sits
exactly at `offset + size` in the `chunks` map, is registered in the `sizes`
set, and `old_size + neighbour_size` covers `new_size` (case b). -/
theorem reallocChunk_returns_same_offset
    (st : AvailableChunkList) (offset size new_size : Nat)
    (h : offset + size = st.end_offset ∨
      (offset + size ≠ st.end_offset ∧
        ∃ ns, mapLookup (offset + size) st.chunks = some ns ∧
          new_size ≤ size + ns ∧
          (setRemove (ns, offset + size) st.sizes).1 = true)) :
    ∃ st1, st.reallocChunk offset size new_size = .ok (offset, st1) := by
  rcases h with h | ⟨hne, ns, hlook, hfit, hset⟩
  · exact ⟨{ st with end_offset := offset + new_size },
      by simp [AvailableChunkList.reallocChunk, h]⟩
  · rcases hmr : mapRemove (offset + size) st.chunks with ⟨f, rest⟩
    have hf : f = some ns := by
      have h1 := mapRemove_fst_eq_mapLookup (offset + size) st.chunks
      rw [hmr, hlook] at h1
      exact h1
    subst hf
    refine ⟨AvailableChunkList.insertChunkInternal
        { st with sizes := (setRemove (ns, offset + size) st.sizes).2,
                  chunks := rest }
        (offset + new_size) (size + ns - new_size), ?_⟩
    simp only [AvailableChunkList.reallocChunk, if_neg hne, hlook,
      AvailableChunkList.removeChunkInternal, hmr, hset]
    simp [hfit, hset]

/-- Witness for the amended C7 theorem, at the state with one free chunk
`(60, 5)` and `end_offset = 100`: reallocating the live region `[50, 60)`
to size 12 absorbs the neighbour and keeps offset 50. -/
theorem reallocChunk_returns_same_offset_witness :
    ((50 + 10 ≠ 100 ∧
        mapLookup (50 + 10) [(60, 5)] = some 5 ∧ 12 ≤ 10 + 5 ∧
        (setRemove (5, 50 + 10) [(5, 60)]).1 = true) ∧
      ∃ st1, (AvailableChunkList.mk 100 [(5, 60)] [(60, 5)]).reallocChunk
          50 10 12 = .ok (50, st1)) :=
  ⟨by decide,
    reallocChunk_returns_same_offset ⟨100, [(5, 60)], [(60, 5)]⟩ 50 10 12
      (Or.inr ⟨by decide, 5, by decide, by decide, by decide⟩)⟩

/-- Parsing a tag off the front of the byte stream it heads. -/
theorem readTag_append (tag rest : List Nat) :
    readTag tag (tag ++ rest) = some rest := by
  simp [readTag]

/-- `le_u32` recovers what `u32le` wrote. -/
theorem readU32le_u32le (n : Nat) (rest : List Nat) (h : n < 2 ^ 32) :
    readU32le (u32le n ++ rest) = some (n, rest) := by
  simp only [u32le, List.cons_append, List.nil_append, readU32le,
    Option.some.injEq, Prod.mk.injEq, and_true]
  omega

/-- `take!` recovers a length-prefixed chunk. -/
theorem readTake_append (l rest : List Nat) :
    readTake l.length (l ++ rest) = some (l, rest) := by
  simp [readTake]

/-- C4 counterexample: finishing a THOR builder holding 2 recorded entries
writes the header's 32-bit count field as 2 — not 2 + 1 — and
`parse_thor_header` keeps the stored field unchanged (no subtraction):
the parsed `file_count` is 2, not 2 − 1. -/
theorem thor_header_count_written_verbatim :
    ∃ bytes, writeThorHeader false 2 [] 0 0 = .ok bytes ∧
      (bytes.drop 25).take 4 = u32le 2 ∧
      u32le 2 ≠ u32le (2 + 1) ∧
      parseThorHeader bytes =
        some (⟨false, 2, .MultipleFiles, []⟩, u32le 0 ++ u32le 0) ∧
      (2 : Nat) ≠ 2 + 1 :=
  ⟨[65, 83, 83, 70, 32, 40, 67, 41, 32, 50, 48, 48, 55, 32, 65, 101, 111,
    109, 105, 110, 32, 68, 69, 86, 0, 2, 0, 0, 0, 48, 0, 0, 0, 0, 0, 0,
    0, 0, 0, 0], by decide⟩

/-- C4 (amended): the THOR builder stores the exact number of recorded
entries in the header's count field and the reader parses it back
unchanged, so the round trip preserves the count with no ±1 adjustment;
the remaining bytes are the table descriptor. -/
theorem thor_header_roundtrip (merging : Bool) (count : Nat)
    (name : List Nat) (cts fto : Nat)
    (hc : count < 2 ^ 32) (hn : name.length < 256)
    (h1 : cts < 2 ^ 32) (h2 : fto < 2 ^ 32) :
    ∃ bytes, writeThorHeader merging count name cts fto = .ok bytes ∧
      parseThorHeader bytes =
        some (⟨merging, count, .MultipleFiles, name⟩,
          u32le cts ++ u32le fto) := by
  refine ⟨THOR_HEADER_MAGIC ++ [if merging then 1 else 0] ++ u32le count
    ++ u16le 48 ++ [name.length] ++ name ++ (u32le cts ++ u32le fto),
    ?_, ?_⟩
  · simp only [writeThorHeader, if_pos hc, if_pos hn, if_pos h1, if_pos h2,
      List.append_assoc]
  · cases merging <;>
    simp only [parseThorHeader, THOR_HEADER_MAGIC, readTag, u32le, u16le,
      List.cons_append, List.nil_append, List.length_cons, List.length_nil,
      List.take, List.drop, readU8, readU32le, readI16le, readTake,
      i16_to_thor_mode] <;>
    norm_num <;>
    omega

/-- Witness for the amended C4 theorem at merge flag true, 7 entries, a
3-byte GRF name and table descriptor (100, 200). -/
theorem thor_header_roundtrip_witness :
    (7 < 2 ^ 32 ∧ ([103, 114, 102] : List Nat).length < 256 ∧
      100 < 2 ^ 32 ∧ 200 < 2 ^ 32) ∧
    ∃ bytes, writeThorHeader true 7 [103, 114, 102] 100 200 = .ok bytes ∧
      parseThorHeader bytes =
        some (⟨true, 7, .MultipleFiles, [103, 114, 102]⟩,
          u32le 100 ++ u32le 200) :=
  ⟨⟨by decide, by decide, by decide, by decide⟩,
    thor_header_roundtrip true 7 [103, 114, 102] 100 200
      (by decide) (by decide) (by decide) (by decide)⟩

/-- C6 counterexample: with a persisted cursor of 5 and a fetched patch list
containing only index 3, the filter keeps index 3 (no entry equals the
cached index, so no filtering happens), `apply_patches` applies it and
writes 3 to the cursor — strictly below the previous value 5. -/
theorem cursor_write_can_decrease :
    filterPatchList (some 5) [⟨3, r"a.thor"⟩] = [⟨3, r"a.thor"⟩] ∧
    cursorWrites (filterPatchList (some 5) [⟨3, r"a.thor"⟩]) = [3] ∧
    3 < 5 := by
  decide

/-- C6 (amended): when the persisted cursor value occurs among the fetched
patch indices, the filter drops everything at or below it, so every index
subsequently written to the cursor file during the run is strictly greater
than the previous persisted value. -/
theorem cursor_monotone_when_cached_index_in_list
    (cached : Nat) (patch_list : List PatchInfo)
    (h : ∃ p ∈ patch_list, p.index = cached) :
    ∀ w ∈ cursorWrites (filterPatchList (some cached) patch_list),
      cached < w := by
  intro w hw
  have hany : patch_list.any (fun x => x.index = cached) = true := by
    rcases h with ⟨p, hp, he⟩
    exact List.any_eq_true.mpr ⟨p, hp, by simp [he]⟩
  simp only [filterPatchList, hany, if_true] at hw
  simp only [cursorWrites, List.mem_map] at hw
  rcases hw with ⟨p, hp, rfl⟩
  have hmem := List.mem_filter.mp hp
  simpa using hmem.2

/-- Witness for the amended C6 theorem: cursor 5, patch list with indices
5 and 7. -/
theorem cursor_monotone_witness :
    (∃ p ∈ [PatchInfo.mk 5 r"a.thor", PatchInfo.mk 7 r"b.thor"],
      p.index = 5) ∧
    ∀ w ∈ cursorWrites (filterPatchList (some 5)
        [PatchInfo.mk 5 r"a.thor", PatchInfo.mk 7 r"b.thor"]), 5 < w :=
  ⟨⟨PatchInfo.mk 5 r"a.thor", by simp⟩,
    cursor_monotone_when_cached_index_in_list 5
      [PatchInfo.mk 5 r"a.thor", PatchInfo.mk 7 r"b.thor"]
      ⟨PatchInfo.mk 5 r"a.thor", by simp⟩⟩

/-- Association lookup distributes over append. -/
theorem assocLookup_append {α : Type} (k : String)
    (l1 l2 : List (String × α)) :
    assocLookup k (l1 ++ l2) =
      match assocLookup k l1 with
      | some v => some v
      | none => assocLookup k l2 := by
  induction l1 with
  | nil => simp [assocLookup]
  | cons y ys ih =>
    by_cases h : k = y.1 <;> simp [assocLookup, h, ih]

/-- Lookup misses exactly the keys absent from the list. -/
theorem assocLookup_eq_none_iff {α : Type} (k : String)
    (l : List (String × α)) :
    assocLookup k l = none ↔ k ∉ l.map Prod.fst := by
  induction l with
  | nil => simp [assocLookup]
  | cons y ys ih =>
    by_cases h : k = y.1
    · simp [assocLookup, h]
    · simp only [assocLookup, if_neg h, ih, List.map_cons, List.mem_cons]
      constructor
      · intro hn hor
        rcases hor with he | hm
        · exact h he
        · exact hn hm
      · intro hn hm
        exact hn (Or.inr hm)

/-- Updating an absent key appends the binding. -/
theorem assocUpdate_of_lookup_none {α : Type} (k : String) (v : α)
    (l : List (String × α)) (h : assocLookup k l = none) :
    assocUpdate k v l = l ++ [(k, v)] := by
  induction l with
  | nil => rfl
  | cons y ys ih =>
    simp only [assocLookup] at h
    by_cases hk : k = y.1
    · simp [hk] at h
    · simp only [assocUpdate, if_neg hk, List.cons_append, List.cons.injEq,
        true_and]
      exact ih (by simpa [hk] using h)

/-- `alloc_chunk` on a state with no free chunk extends `end_offset`. -/
theorem allocChunk_clean (e n : Nat) :
    (AvailableChunkList.mk e [] []).allocChunk n =
      .ok (e, AvailableChunkList.mk (e + n) [] []) := by
  simp [AvailableChunkList.allocChunk, AvailableChunkList.findSuitableChunk,
    setRangeFirstGe]

/-- Writing at the end of file appends. -/
theorem writeAt_append (l d : List Nat) : writeAt l l.length d = l ++ d := by
  simp [writeAt, List.drop_eq_nil_of_le]

/-- Phase A of a build: folding `add_file` over fresh paths appends each
compressed payload to the file, appends the planned index entries, and
keeps a chunk list with no free chunk whose `end_offset` tracks the file
length. -/
theorem grfAddFile_fold (deflate : List Nat → List Nat)
    (files : List (String × List Nat)) :
    ∀ (E : List (String × GenericFileEntry)) (f0 : List Nat),
      (files.map Prod.fst).Nodup →
      (∀ pb ∈ files, pb.2.length < 2 ^ 32 ∧ (deflate pb.2).length < 2 ^ 32) →
      (∀ pb ∈ files, assocLookup pb.1 E = none) →
      files.foldlM (fun st pb => grfAddFile deflate st pb.1 pb.2)
        (GrfBuilderState.mk f0 0 false 2 0 E
          (AvailableChunkList.mk f0.length [] []))
      = .ok (GrfBuilderState.mk
          (f0 ++ (files.map (fun pb => deflate pb.2)).flatten) 0 false 2 0
          (E ++ plannedEntries deflate f0.length files)
          (AvailableChunkList.mk (f0.length + comSum deflate files) [] [])) := by
  induction files with
  | nil =>
    intro E f0 _ _ _
    simp only [List.foldlM, comSum, plannedEntries, List.map_nil,
      List.flatten_nil, List.append_nil, List.sum_nil, Nat.add_zero]
    rfl
  | cons pb rest ih =>
    intro E f0 hnodup hsz hE
    rcases pb with ⟨p, d⟩
    have hd : d.length < 2 ^ 32 := (hsz (p, d) (by simp)).1
    have hc : (deflate d).length < 2 ^ 32 := (hsz (p, d) (by simp)).2
    have hlook : assocLookup p E = none := hE (p, d) (by simp)
    have hstep : grfAddFile deflate
        (GrfBuilderState.mk f0 0 false 2 0 E
          (AvailableChunkList.mk f0.length [] []))
        p d
        = .ok (GrfBuilderState.mk (f0 ++ deflate d) 0 false 2 0
            (E ++ [(p, ⟨f0.length, d.length, (deflate d).length⟩)])
            (AvailableChunkList.mk (f0.length + (deflate d).length) [] [])) := by
      simp only [grfAddFile, if_pos hd, hlook, allocChunk_clean, if_pos hc]
      rw [assocUpdate_of_lookup_none p _ E hlook]
      simp only [Nat.zero_add, writeAt_append]
    rw [List.foldlM_cons, hstep]
    show rest.foldlM (fun st pb => grfAddFile deflate st pb.1 pb.2) _ = _
    have hcons : (p :: rest.map Prod.fst).Nodup := by
      simpa using hnodup
    have hrest_nodup : (rest.map Prod.fst).Nodup :=
      (List.nodup_cons.mp hcons).2
    have hrest_sz : ∀ qb ∈ rest, qb.2.length < 2 ^ 32 ∧
        (deflate qb.2).length < 2 ^ 32 :=
      fun qb hq => hsz qb (by simp [hq])
    have hp_not : p ∉ rest.map Prod.fst := (List.nodup_cons.mp hcons).1
    have hrest_E : ∀ qb ∈ rest,
        assocLookup qb.1 (E ++ [(p, ⟨f0.length, d.length,
          (deflate d).length⟩)]) = none := by
      intro qb hq
      rw [assocLookup_append]
      rw [hE qb (by simp [hq])]
      have hne : qb.1 ≠ p := by
        intro heq
        exact hp_not (heq ▸ List.mem_map_of_mem Prod.fst hq)
      simp [assocLookup, hne]
    have := ih (E ++ [(p, ⟨f0.length, d.length, (deflate d).length⟩)])
      (f0 ++ deflate d) hrest_nodup hrest_sz hrest_E
    rw [List.length_append] at this
    rw [this]
    simp [plannedEntries, comSum, List.append_assoc, Nat.add_assoc]

/-- `plannedEntries` has one entry per file. -/
theorem plannedEntries_length (deflate : List Nat → List Nat)
    (files : List (String × List Nat)) :
    ∀ off, (plannedEntries deflate off files).length = files.length := by
  induction files with
  | nil => intro off; rfl
  | cons pb rest ih =>
    intro off
    rcases pb with ⟨p, d⟩
    simp [plannedEntries, ih]

/-- `plannedEntries` keeps the file paths as keys. -/
theorem plannedEntries_keys (deflate : List Nat → List Nat)
    (files : List (String × List Nat)) :
    ∀ off, (plannedEntries deflate off files).map Prod.fst =
      files.map Prod.fst := by
  induction files with
  | nil => intro off; rfl
  | cons pb rest ih =>
    intro off
    rcases pb with ⟨p, d⟩
    simp [plannedEntries, ih]

/-- Serialization of the v2.0 table succeeds on encodable paths and
flattens the per-entry records. -/
theorem serGrfEntries200_eq (l : List (String × GenericFileEntry))
    (h : ∀ pe ∈ l, ∃ b, serialize_to_win1252 pe.1 = Except.ok b) :
    serGrfEntries200 l =
      .ok ((l.map (fun pe => serGrfRecord (win1252Bytes pe.1) pe.2)).flatten) := by
  induction l with
  | nil => rfl
  | cons pe rest ih =>
    rcases pe with ⟨p, e⟩
    obtain ⟨b, hb⟩ := h (p, e) (by simp)
    have hrest : ∀ qe ∈ rest, ∃ c, serialize_to_win1252 qe.1 = Except.ok c :=
      fun qe hq => h qe (by simp [hq])
    have hwb : win1252Bytes p = b := by simp [win1252Bytes, hb]
    simp only [serGrfEntries200, hb, ih hrest, List.map_cons,
      List.flatten_cons, serGrfRecord, hwb, List.append_assoc]

/-- `writeAt` at offset 0 overwrites a prefix. -/
theorem writeAt_zero (l d : List Nat) : writeAt l 0 d = d ++ l.drop d.length := by
  simp [writeAt]

/-- The header block is `GRF_HEADER_SIZE` bytes long. -/
theorem grfHeaderBytes_length (version fto cnt : Nat) :
    (grfHeaderBytes version fto cnt).length = GRF_HEADER_SIZE := by
  simp [grfHeaderBytes, GRF_HEADER_MAGIC_B, GRF_FIXED_KEY, u32le,
    GRF_HEADER_SIZE]

/-- Phase B of a build: `finish` writes the length preamble, the
compressed table and the header, producing `grfOutBytes`. -/
theorem grfBuildArchive_eq (deflate : List Nat → List Nat)
    (files : List (String × List Nat))
    (hnodup : (files.map Prod.fst).Nodup)
    (hsz : ∀ pb ∈ files, pb.2.length < 2 ^ 32 ∧
      (deflate pb.2).length < 2 ^ 32)
    (henc : ∀ pb ∈ files, ∃ b, serialize_to_win1252 pb.1 = Except.ok b)
    (hcnt : files.length + 7 < 2 ^ 31)
    (htab : (tableBytesOf deflate files).length < 2 ^ 32)
    (hct : (deflate (tableBytesOf deflate files)).length < 2 ^ 32) :
    grfBuildArchive deflate files = .ok (grfOutBytes deflate files) := by
  have hE : ∀ pb ∈ files,
      assocLookup pb.1 ([] : List (String × GenericFileEntry)) = none :=
    fun pb _ => rfl
  have hfold := grfAddFile_fold deflate files []
    (List.replicate GRF_HEADER_SIZE 0) hnodup hsz hE
  simp only [List.length_replicate, List.nil_append] at hfold
  have hser : serGrfEntries200 (plannedEntries deflate GRF_HEADER_SIZE files)
      = .ok (tableBytesOf deflate files) := by
    rw [serGrfEntries200_eq]
    · rfl
    · intro pe hpe
      have hkey : pe.1 ∈ files.map Prod.fst := by
        have := List.mem_map_of_mem Prod.fst hpe
        rwa [plannedEntries_keys] at this
      obtain ⟨pb, hpb, hpb1⟩ := List.mem_map.mp hkey
      obtain ⟨b, hb⟩ := henc pb hpb
      exact ⟨b, hpb1 ▸ hb⟩
  have hplen : (plannedEntries deflate GRF_HEADER_SIZE files).length
      = files.length := plannedEntries_length deflate files GRF_HEADER_SIZE
  have hflat : ((files.map (fun pb => deflate pb.2)).flatten).length
      = comSum deflate files := by
    rw [List.length_flatten]
    rfl
  simp only [grfBuildArchive, grfBuilderCreate, AvailableChunkList.new]
  rw [hfold]
  simp only [grfFinish, Bool.false_eq_true, if_false, hplen, if_pos hcnt,
    grfWriteTable200, hser, allocChunk_clean, if_pos htab, if_pos hct]
  have hlen2 : (List.replicate GRF_HEADER_SIZE 0
      ++ (files.map (fun (pb : String × List Nat) => deflate pb.2)).flatten).length
      = GRF_HEADER_SIZE + comSum deflate files := by
    rw [List.length_append, List.length_replicate, hflat]
  rw [show (0 + (GRF_HEADER_SIZE + comSum deflate files))
    = GRF_HEADER_SIZE + comSum deflate files from by omega]
  rw [← hlen2, writeAt_append]
  rw [hlen2]
  rw [show (GRF_HEADER_SIZE + comSum deflate files - GRF_HEADER_SIZE)
    = comSum deflate files from by simp]
  have hw0 : writeAt ((List.replicate GRF_HEADER_SIZE 0
        ++ (files.map (fun (pb : String × List Nat) => deflate pb.2)).flatten)
      ++ (u32le (deflate (tableBytesOf deflate files)).length
        ++ u32le (tableBytesOf deflate files).length
        ++ deflate (tableBytesOf deflate files))) 0
      (grfHeaderBytes ((2 <<< 8) ||| 0) (comSum deflate files % 2 ^ 32)
        (files.length + 7))
      = grfOutBytes deflate files := by
    rw [writeAt_zero, grfHeaderBytes_length]
    simp only [grfOutBytes, List.append_assoc]
    congr 1
  rw [hw0]

/-- `le_i32` on a small value written by `u32le`. -/
theorem readI32le_u32le_small (n : Nat) (rest : List Nat) (h : n < 2 ^ 31) :
    readI32le (u32le n ++ rest) = some ((n : Int), rest) := by
  have hv : n % 256 + 256 * (n / 256 % 256 + 256 * (n / 65536 % 256
      + 256 * (n / 16777216 % 256))) = n := by omega
  simp only [u32le, List.cons_append, List.nil_append, readI32le, hv,
    if_pos h]

/-- `(v_file_count − seed − 7) as usize` recovers the true count when the
builder wrote `count + 7` with seed 0. -/
theorem intToUsize_of_count (k : Nat) (h : k < 2 ^ 64) :
    intToUsize ((((k + 7 : Nat) : Int)) - 0 - 7) = k := by
  have : (((k + 7 : Nat) : Int)) - 0 - 7 = (k : Int) := by
    push_cast
    ring
  rw [this]
  simp only [intToUsize]
  omega

/-- Parsing the header block the v2.0 builder writes. -/
theorem parseGrfHeader_spec (fto cnt : Nat) (hf : fto < 2 ^ 32)
    (hc : cnt < 2 ^ 31) :
    parseGrfHeader (grfHeaderBytes ((2 <<< 8) ||| 0) fto cnt)
      = some (⟨GRF_FIXED_KEY, fto, 0, intToUsize ((cnt : Int) - 0 - 7),
          2, 0⟩, []) := by
  have hcval : cnt % 256 + 256 * (cnt / 256 % 256 + 256 * (cnt / 65536 % 256
      + 256 * (cnt / 16777216 % 256))) = cnt := by omega
  have hfval : fto % 256 + 256 * (fto / 256 % 256 + 256 * (fto / 65536 % 256
      + 256 * (fto / 16777216 % 256))) = fto := by omega
  simp [grfHeaderBytes, GRF_HEADER_MAGIC_B, GRF_FIXED_KEY, u32le,
    parseGrfHeader, readTag, readTake, readU32le, readI32le,
    hcval, hfval, intToUsize]
  refine ⟨?_, by decide, by decide⟩
  rw [if_pos (show cnt < 2147483648 from hc)]

/-- A byte returned by the strict encoder decodes back to the same code
point. -/
theorem win1252ToChar_of_win1252OfChar (n b : Nat)
    (h : win1252OfChar n = some b) : win1252ToChar b = n := by
  have hb : b ∈ (List.range 256).filter (fun x => win1252ToChar x = n) :=
    List.mem_of_mem_head? h
  simpa using List.of_mem_filter hb

/-- Decoding what the strict encoder produced gives the string back. -/
theorem string_from_win1252_serialize (p : String) (b : List Nat)
    (h : serialize_to_win1252 p = Except.ok b) :
    string_from_win_1252 b = p := by
  by_cases hall : (p.data.map (fun c => win1252OfChar c.toNat)).all
      (fun o => o.isSome)
  · have hb : b = (p.data.map (fun c => win1252OfChar c.toNat)).map
        (fun o => o.getD 0) := by
      simp only [serialize_to_win1252, if_pos hall, Except.ok.injEq] at h
      exact h.symm
    subst hb
    simp only [string_from_win_1252, List.map_map]
    have hpt : ∀ c ∈ p.data,
        ((fun x => Char.ofNat (win1252ToChar x)) ∘ ((fun o => Option.getD o 0)
          ∘ (fun c => win1252OfChar c.toNat))) c = c := by
      intro c hc
      have hsome : (win1252OfChar c.toNat).isSome := by
        have := List.all_eq_true.mp hall _
          (List.mem_map_of_mem (fun c => win1252OfChar c.toNat) hc)
        simpa using this
      obtain ⟨byt, hbyt⟩ := Option.isSome_iff_exists.mp hsome
      simp only [Function.comp_apply, hbyt, Option.getD_some,
        win1252ToChar_of_win1252OfChar c.toNat byt hbyt]
      exact Char.ofNat_toNat c
    rw [List.map_congr_left hpt]
    simp
  · simp [serialize_to_win1252, hall] at h

/-- `take_while` stops exactly at the NUL terminator. -/
theorem takeWhile_nul (pb r : List Nat) (h : (0 : Nat) ∉ pb) :
    (pb ++ 0 :: r).takeWhile (fun b => b ≠ 0) = pb := by
  induction pb with
  | nil => simp [List.takeWhile]
  | cons a tl ih =>
    have ha : a ≠ 0 := fun he => h (he ▸ List.mem_cons_self a tl)
    have htl : (0 : Nat) ∉ tl := fun hm => h (List.mem_cons_of_mem a hm)
    have hc : (decide (a ≠ 0)) = true := by simp [ha]
    simp only [List.cons_append, List.takeWhile_cons, hc, if_true]
    rw [ih htl]

/-- `parse_grf_file_entry_200` splits the input at the NUL terminator
when the path holds no NUL byte. -/
theorem parseGrfFileEntry200_nulSplit (pb T : List Nat)
    (hnul : (0 : Nat) ∉ pb) :
    parseGrfFileEntry200 (pb ++ 0 :: T)
      = match readU32le T with
        | none => none
        | some (size_compressed, r2) =>
          match readU32le r2 with
          | none => none
          | some (size_compressed_aligned, r3) =>
            match readU32le r3 with
            | none => none
            | some (size, r4) =>
              match readU8 r4 with
              | none => none
              | some (entry_type, r5) =>
                match readU32le r5 with
                | none => none
                | some (offset, r6) =>
                  some (⟨string_from_win_1252 pb, size_compressed,
                    size_compressed_aligned, size, entry_type,
                    GRF_HEADER_SIZE + offset, .Unencrypted⟩, r6) := by
  have htw : (pb ++ 0 :: T).takeWhile (fun b => b ≠ 0) = pb :=
    takeWhile_nul pb T hnul
  simp only [parseGrfFileEntry200, htw, List.drop_left]

/-- `parse_grf_file_entry_200` inverts one serialized record. -/
theorem parseGrfFileEntry200_record (pb : List Nat) (e : GenericFileEntry)
    (rest : List Nat) (hnul : (0 : Nat) ∉ pb)
    (h1 : e.size_compressed < 2 ^ 32) (h2 : e.size < 2 ^ 32) :
    parseGrfFileEntry200 (serGrfRecord pb e ++ rest)
      = some (⟨string_from_win_1252 pb, e.size_compressed,
          e.size_compressed, e.size, 1,
          GRF_HEADER_SIZE + ((e.offset - GRF_HEADER_SIZE) % 2 ^ 32),
          GrfFileEncryption.Unencrypted⟩, rest) := by
  have hmod : (e.offset - GRF_HEADER_SIZE) % 2 ^ 32 < 2 ^ 32 :=
    Nat.mod_lt _ (by norm_num)
  have hshape : serGrfRecord pb e ++ rest
      = pb ++ 0 :: (u32le e.size_compressed ++ (u32le e.size_compressed
        ++ (u32le e.size
        ++ 1 :: (u32le ((e.offset - GRF_HEADER_SIZE) % 2 ^ 32) ++ rest)))) := by
    simp [serGrfRecord, List.append_assoc]
  have hA := readU32le_u32le e.size_compressed
    (u32le e.size_compressed ++ (u32le e.size
      ++ 1 :: (u32le ((e.offset - GRF_HEADER_SIZE) % 2 ^ 32) ++ rest))) h1
  have hB := readU32le_u32le e.size_compressed
    (u32le e.size
      ++ 1 :: (u32le ((e.offset - GRF_HEADER_SIZE) % 2 ^ 32) ++ rest)) h1
  have hC := readU32le_u32le e.size
    (1 :: (u32le ((e.offset - GRF_HEADER_SIZE) % 2 ^ 32) ++ rest)) h2
  have hD := readU32le_u32le ((e.offset - GRF_HEADER_SIZE) % 2 ^ 32) rest hmod
  rw [hshape, parseGrfFileEntry200_nulSplit _ _ hnul]
  simp only [hA, hB, hC, hD, readU8]

/-- The bounded fold parses back exactly the serialized records. -/
theorem foldManyMN_records (l : List (String × GenericFileEntry))
    (h : ∀ pe ∈ l, (0 : Nat) ∉ win1252Bytes pe.1
      ∧ pe.2.size_compressed < 2 ^ 32 ∧ pe.2.size < 2 ^ 32) :
    foldManyMN l.length parseGrfFileEntry200
      ((l.map (fun pe => serGrfRecord (win1252Bytes pe.1) pe.2)).flatten)
      = (l.map parsed200, []) := by
  induction l with
  | nil => rfl
  | cons pe rest ih =>
    obtain ⟨hn, h1, h2⟩ := h pe (by simp)
    have hrest := ih (fun qe hq => h qe (by simp [hq]))
    have hrec := parseGrfFileEntry200_record (win1252Bytes pe.1) pe.2
      ((rest.map (fun qe => serGrfRecord (win1252Bytes qe.1) qe.2)).flatten)
      hn h1 h2
    simp only [List.map_cons, List.flatten_cons, List.length_cons,
      foldManyMN, List.append_assoc, hrec, hrest, parsed200]

/-- `parse_grf_file_entries_200` on the serialized table of a nonempty
entry list. -/
theorem parseGrfFileEntries200_table (l : List (String × GenericFileEntry))
    (h : ∀ pe ∈ l, (0 : Nat) ∉ win1252Bytes pe.1
      ∧ pe.2.size_compressed < 2 ^ 32 ∧ pe.2.size < 2 ^ 32)
    (hne : l ≠ []) :
    parseGrfFileEntries200 l.length
      ((l.map (fun pe => serGrfRecord (win1252Bytes pe.1) pe.2)).flatten)
      = some ((l.map parsed200).foldl
          (fun acc it => assocUpdate it.relative_path it acc) [], []) := by
  have hlp : 1 ≤ (l.map parsed200).length := by
    rw [List.length_map]
    exact List.length_pos.mpr hne
  simp only [parseGrfFileEntries200, foldManyMN_records l h, if_pos hlp]

/-- Folding `insert` over entries with pairwise-distinct paths lists the
bindings in order. -/
theorem foldl_assocUpdate_nodup (l : List GrfFileEntryM) :
    ∀ acc : List (String × GrfFileEntryM),
      (l.map (fun it => it.relative_path)).Nodup →
      (∀ it ∈ l, assocLookup it.relative_path acc = none) →
      l.foldl (fun acc it => assocUpdate it.relative_path it acc) acc
        = acc ++ l.map (fun it => (it.relative_path, it)) := by
  induction l with
  | nil => intro acc _ _; simp
  | cons it tl ih =>
    intro acc hnodup hacc
    have hlook : assocLookup it.relative_path acc = none :=
      hacc it (by simp)
    have hcons : (it.relative_path
        :: tl.map (fun jt => jt.relative_path)).Nodup := by
      simpa using hnodup
    have hni := (List.nodup_cons.mp hcons).1
    have htl := (List.nodup_cons.mp hcons).2
    have hacc2 : ∀ jt ∈ tl, assocLookup jt.relative_path
        (acc ++ [(it.relative_path, it)]) = none := by
      intro jt hj
      rw [assocLookup_append, hacc jt (by simp [hj])]
      have hne : jt.relative_path ≠ it.relative_path := by
        intro he
        exact hni (he ▸ List.mem_map_of_mem (fun jt => jt.relative_path) hj)
      simp [assocLookup, hne]
    rw [List.foldl_cons,
      assocUpdate_of_lookup_none it.relative_path it acc hlook,
      ih (acc ++ [(it.relative_path, it)]) htl hacc2]
    simp

/-- Every builder entry of a build records a file's data sizes. -/
theorem plannedEntries_mem (deflate : List Nat → List Nat)
    (files : List (String × List Nat)) :
    ∀ off pe, pe ∈ plannedEntries deflate off files →
      ∃ pb ∈ files, ∃ o,
        pe = (pb.1, ⟨o, pb.2.length, (deflate pb.2).length⟩) := by
  induction files with
  | nil =>
    intro off pe hmem
    simp [plannedEntries] at hmem
  | cons qb rest ih =>
    intro off pe hmem
    rcases qb with ⟨q, d⟩
    simp only [plannedEntries, List.mem_cons] at hmem
    rcases hmem with hmem | hmem
    · exact ⟨(q, d), by simp, off, hmem⟩
    · obtain ⟨pb, hpb, o, ho⟩ := ih _ pe hmem
      exact ⟨pb, by simp [hpb], o, ho⟩

/-- `finalEntries` keeps the file paths as keys. -/
theorem finalEntries_keys (deflate : List Nat → List Nat)
    (files : List (String × List Nat)) :
    ∀ off, (finalEntries deflate off files).map Prod.fst
      = files.map Prod.fst := by
  induction files with
  | nil => intro off; rfl
  | cons pb rest ih =>
    intro off
    rcases pb with ⟨p, d⟩
    simp [finalEntries, ih]

/-- With encodable paths and offsets within `u32` reach of the header,
listing the parsed builder entries keyed by path is `finalEntries`. -/
theorem map_parsed200_plannedEntries (deflate : List Nat → List Nat)
    (files : List (String × List Nat)) :
    ∀ off, (∀ pb ∈ files, ∃ b, serialize_to_win1252 pb.1 = Except.ok b) →
      GRF_HEADER_SIZE ≤ off →
      off + comSum deflate files < GRF_HEADER_SIZE + 2 ^ 32 →
      ((plannedEntries deflate off files).map parsed200).map
        (fun it => (it.relative_path, it))
      = finalEntries deflate off files := by
  induction files with
  | nil => intro off _ _ _; rfl
  | cons pb rest ih =>
    intro off henc hge hub
    rcases pb with ⟨p, d⟩
    obtain ⟨b, hb⟩ := henc (p, d) (by simp)
    have hdec : string_from_win_1252 (win1252Bytes p) = p := by
      rw [show win1252Bytes p = b from by simp [win1252Bytes, hb]]
      exact string_from_win1252_serialize p b hb
    have hcsum : comSum deflate ((p, d) :: rest)
        = (deflate d).length + comSum deflate rest := by
      simp [comSum]
    have h1 : off - GRF_HEADER_SIZE < 2 ^ 32 := by omega
    have hofs : GRF_HEADER_SIZE + ((off - GRF_HEADER_SIZE) % 2 ^ 32)
        = off := by
      rw [Nat.mod_eq_of_lt h1]
      omega
    have hrest : ∀ qb ∈ rest, ∃ c, serialize_to_win1252 qb.1 = Except.ok c :=
      fun qb hq => henc qb (by simp [hq])
    rw [show plannedEntries deflate off ((p, d) :: rest)
      = (p, ⟨off, d.length, (deflate d).length⟩)
        :: plannedEntries deflate (off + (deflate d).length) rest from rfl]
    rw [show finalEntries deflate off ((p, d) :: rest)
      = (p, ⟨p, (deflate d).length, (deflate d).length, d.length, 1, off,
          .Unencrypted⟩)
        :: finalEntries deflate (off + (deflate d).length) rest from rfl]
    simp only [List.map_cons]
    congr 1
    · simp [parsed200, hdec]
      omega
    · exact ih (off + (deflate d).length) hrest (by omega) (by omega)

/-- The serialized table of a nonempty build is nonempty. -/
theorem tableBytesOf_ne_nil (deflate : List Nat → List Nat)
    (files : List (String × List Nat)) (hne : files ≠ []) :
    tableBytesOf deflate files ≠ [] := by
  rcases files with _ | ⟨⟨p, d⟩, rest⟩
  · exact absurd rfl hne
  · simp [tableBytesOf, plannedEntries, serGrfRecord]

/-- `le_u32` on exactly the four bytes of `u32le`. -/
theorem readU32le_u32le_nil (n : Nat) (h : n < 2 ^ 32) :
    readU32le (u32le n) = some (n, []) := by
  have := readU32le_u32le n [] h
  simpa using this

/-- The bounded fold returns at most its bound's worth of results. -/
theorem foldManyMN_length_le {α : Type} (mx : Nat)
    (p : List Nat → Option (α × List Nat)) :
    ∀ input, (foldManyMN mx p input).1.length ≤ mx := by
  induction mx with
  | zero => intro input; simp [foldManyMN]
  | succ m ih =>
    intro input
    rw [foldManyMN]
    cases hp : p input with
    | none => simp
    | some ar =>
      rcases ar with ⟨a, rest⟩
      simpa using ih rest

/-- Looking up and slicing the payload of each built file out of the final
archive bytes. -/
theorem finalEntries_read (deflate : List Nat → List Nat)
    (files : List (String × List Nat)) (data : List Nat) :
    ∀ off suf,
      (files.map Prod.fst).Nodup →
      data.drop off = (files.map (fun pb => deflate pb.2)).flatten ++ suf →
      ∀ pb ∈ files,
        ∃ o, assocLookup pb.1 (finalEntries deflate off files)
            = some ⟨pb.1, (deflate pb.2).length, (deflate pb.2).length,
                pb.2.length, 1, o, .Unencrypted⟩
          ∧ (data.drop o).take (deflate pb.2).length = deflate pb.2 := by
  induction files with
  | nil =>
    intro off suf _ _ pb hpb
    simp at hpb
  | cons qb rest ih =>
    intro off suf hnodup hlay pb hpb
    rcases qb with ⟨q, d⟩
    have hcons : (q :: rest.map Prod.fst).Nodup := by simpa using hnodup
    have hdata : data.drop off
        = deflate d
          ++ ((rest.map (fun pb => deflate pb.2)).flatten ++ suf) := by
      simpa [List.append_assoc] using hlay
    rcases List.mem_cons.mp hpb with heq | hmem
    · subst heq
      refine ⟨off, ?_, ?_⟩
      · simp [finalEntries, assocLookup]
      · show (data.drop off).take (deflate d).length = deflate d
        rw [hdata]
        exact List.take_left (deflate d) _
    · have hq : q ∉ rest.map Prod.fst := (List.nodup_cons.mp hcons).1
      have hne : pb.1 ≠ q := by
        intro he
        exact hq (he ▸ List.mem_map_of_mem Prod.fst hmem)
      have hstep :
          assocLookup pb.1 (finalEntries deflate off ((q, d) :: rest))
          = assocLookup pb.1
              (finalEntries deflate (off + (deflate d).length) rest) := by
        simp [finalEntries, assocLookup, hne]
      have hlay2 : data.drop (off + (deflate d).length)
          = (rest.map (fun pb => deflate pb.2)).flatten ++ suf := by
        rw [← List.drop_drop, hdata, List.drop_left]
      obtain ⟨o, ho1, ho2⟩ := ih (off + (deflate d).length) suf
        (List.nodup_cons.mp hcons).2 hlay2 pb hmem
      exact ⟨o, by rw [hstep]; exact ho1, ho2⟩

/-- Opening the bytes of a v2.0 build parses the written header back and
indexes exactly the built entries. -/
theorem grfOpen_grfOutBytes (deflate : List Nat → List Nat)
    (inflate : List Nat → Option (List Nat))
    (files : List (String × List Nat))
    (hitab : inflate (deflate (tableBytesOf deflate files))
      = some (tableBytesOf deflate files))
    (hne : files ≠ [])
    (hnodup : (files.map Prod.fst).Nodup)
    (henc : ∀ pb ∈ files, ∃ b, serialize_to_win1252 pb.1 = Except.ok b)
    (hnz : ∀ pb ∈ files, (0 : Nat) ∉ win1252Bytes pb.1)
    (hsz : ∀ pb ∈ files, pb.2.length < 2 ^ 32
      ∧ (deflate pb.2).length < 2 ^ 32)
    (hcnt : files.length + 7 < 2 ^ 31)
    (hsum : comSum deflate files < 2 ^ 32)
    (htab : (tableBytesOf deflate files).length < 2 ^ 32)
    (hct : (deflate (tableBytesOf deflate files)).length < 2 ^ 32)
    (hctne : deflate (tableBytesOf deflate files) ≠ []) :
    grfOpen inflate (grfOutBytes deflate files)
      = .ok ⟨grfOutBytes deflate files,
          ⟨GRF_FIXED_KEY, comSum deflate files % 2 ^ 32, 0,
            files.length, 2, 0⟩,
          finalEntries deflate GRF_HEADER_SIZE files⟩ := by
  have hPlen : ((files.map (fun pb => deflate pb.2)).flatten).length
      = comSum deflate files := by
    rw [List.length_flatten]
    rfl
  have hu8 : (u32le (deflate (tableBytesOf deflate files)).length
      ++ u32le (tableBytesOf deflate files).length).length = 8 := by
    simp [u32le]
  have hlen : (grfOutBytes deflate files).length
      = GRF_HEADER_SIZE + comSum deflate files + 8
        + (deflate (tableBytesOf deflate files)).length := by
    simp only [grfOutBytes, List.length_append, grfHeaderBytes_length, hPlen]
    simp [u32le]
    omega
  have hge : GRF_HEADER_SIZE ≤ (grfOutBytes deflate files).length := by
    rw [hlen]
    omega
  have htake46 : (grfOutBytes deflate files).take GRF_HEADER_SIZE
      = grfHeaderBytes ((2 <<< 8) ||| 0) (comSum deflate files % 2 ^ 32)
          (files.length + 7) := by
    rw [grfOutBytes,
      ← grfHeaderBytes_length ((2 <<< 8) ||| 0)
        (comSum deflate files % 2 ^ 32) (files.length + 7),
      List.take_left]
  have hheader :
      parseGrfHeader ((grfOutBytes deflate files).take GRF_HEADER_SIZE)
      = some (⟨GRF_FIXED_KEY, comSum deflate files % 2 ^ 32, 0,
          files.length, 2, 0⟩, []) := by
    rw [htake46, parseGrfHeader_spec (comSum deflate files % 2 ^ 32)
      (files.length + 7) (Nat.mod_lt _ (by norm_num)) hcnt,
      intToUsize_of_count files.length (by omega)]
  have hmodsum : comSum deflate files % 2 ^ 32 = comSum deflate files :=
    Nat.mod_eq_of_lt hsum
  have hsplit : grfOutBytes deflate files
      = (grfHeaderBytes ((2 <<< 8) ||| 0) (comSum deflate files % 2 ^ 32)
          (files.length + 7)
        ++ (files.map (fun pb => deflate pb.2)).flatten)
        ++ (u32le (deflate (tableBytesOf deflate files)).length
          ++ u32le (tableBytesOf deflate files).length
          ++ deflate (tableBytesOf deflate files)) := by
    simp [grfOutBytes, List.append_assoc]
  have hplen2 : (grfHeaderBytes ((2 <<< 8) ||| 0)
      (comSum deflate files % 2 ^ 32) (files.length + 7)
      ++ (files.map (fun pb => deflate pb.2)).flatten).length
      = GRF_HEADER_SIZE + comSum deflate files := by
    rw [List.length_append, grfHeaderBytes_length, hPlen]
  have hdrop1 : (grfOutBytes deflate files).drop
      (GRF_HEADER_SIZE + comSum deflate files)
      = u32le (deflate (tableBytesOf deflate files)).length
        ++ u32le (tableBytesOf deflate files).length
        ++ deflate (tableBytesOf deflate files) := by
    rw [hsplit, ← hplen2, List.drop_left]
  have htake8 : ((u32le (deflate (tableBytesOf deflate files)).length
      ++ u32le (tableBytesOf deflate files).length
      ++ deflate (tableBytesOf deflate files)).take 8)
      = u32le (deflate (tableBytesOf deflate files)).length
        ++ u32le (tableBytesOf deflate files).length := by
    rw [← hu8, List.take_left]
  have hr1 : readU32le (u32le (deflate (tableBytesOf deflate files)).length
      ++ u32le (tableBytesOf deflate files).length)
      = some ((deflate (tableBytesOf deflate files)).length,
          u32le (tableBytesOf deflate files).length) :=
    readU32le_u32le _ _ hct
  have hr2 : readU32le (u32le (tableBytesOf deflate files).length)
      = some ((tableBytesOf deflate files).length, []) :=
    readU32le_u32le_nil _ htab
  have hdrop2 : (grfOutBytes deflate files).drop
      (GRF_HEADER_SIZE + comSum deflate files + 8)
      = deflate (tableBytesOf deflate files) := by
    rw [← List.drop_drop, hdrop1, ← hu8, List.drop_left]
  have hge2 : GRF_HEADER_SIZE + comSum deflate files + 8
      ≤ (grfOutBytes deflate files).length := by
    rw [hlen]
    omega
  have htne : tableBytesOf deflate files ≠ [] :=
    tableBytesOf_ne_nil deflate files hne
  have hzero : ¬((deflate (tableBytesOf deflate files)).length = 0
      ∨ (tableBytesOf deflate files).length = 0) := by
    rintro (h0 | h0)
    · exact hctne (List.eq_nil_of_length_eq_zero h0)
    · exact htne (List.eq_nil_of_length_eq_zero h0)
  have hpre : ∀ pe ∈ plannedEntries deflate GRF_HEADER_SIZE files,
      (0 : Nat) ∉ win1252Bytes pe.1 ∧ pe.2.size_compressed < 2 ^ 32
        ∧ pe.2.size < 2 ^ 32 := by
    intro pe hpe
    obtain ⟨pb, hpb, o, ho⟩ := plannedEntries_mem deflate files
      GRF_HEADER_SIZE pe hpe
    subst ho
    exact ⟨hnz pb hpb, (hsz pb hpb).2, (hsz pb hpb).1⟩
  have hplanne : plannedEntries deflate GRF_HEADER_SIZE files ≠ [] := by
    intro h0
    have hl := plannedEntries_length deflate files GRF_HEADER_SIZE
    rw [h0] at hl
    simp only [List.length_nil] at hl
    exact hne (List.eq_nil_of_length_eq_zero hl.symm)
  have hents : parseGrfFileEntries200 files.length (tableBytesOf deflate files)
      = some (((plannedEntries deflate GRF_HEADER_SIZE files).map
          parsed200).foldl
          (fun acc it => assocUpdate it.relative_path it acc) [], []) := by
    have := parseGrfFileEntries200_table
      (plannedEntries deflate GRF_HEADER_SIZE files) hpre hplanne
    rw [plannedEntries_length] at this
    exact this
  have hL8 := map_parsed200_plannedEntries deflate files GRF_HEADER_SIZE
    henc (le_refl _) (by omega)
  have hmapkeys : ((plannedEntries deflate GRF_HEADER_SIZE files).map
      parsed200).map (fun it => it.relative_path) = files.map Prod.fst := by
    have := congrArg (List.map Prod.fst) hL8
    simpa [List.map_map, Function.comp, finalEntries_keys] using this
  have hfold : ((plannedEntries deflate GRF_HEADER_SIZE files).map
      parsed200).foldl (fun acc it => assocUpdate it.relative_path it acc) []
      = finalEntries deflate GRF_HEADER_SIZE files := by
    rw [foldl_assocUpdate_nodup _ []
      (by rw [hmapkeys]; exact hnodup) (fun it _ => rfl),
      List.nil_append, hL8]
  simp only [grfOpen, if_pos hge, hheader, hmodsum, if_pos hge2, hdrop1,
    htake8, hr1, hr2, if_neg hzero, hdrop2, List.take_length, hitab,
    hents, hfold, reduceIte]

/-- C5 (amended): for every nonempty list of distinct, Windows-1252-
encodable relative paths whose encodings hold no NUL byte, mapped to byte
strings whose sizes (and the build's derived table sizes and counts) fit
the format's 32-bit fields, building a v2.0 GRF with the builder and
opening it with the reader indexes every path with its original length as
`size`, and `read_file_content` returns exactly the original bytes.  The
claim as frozen quantifies over all encodable paths; paths whose encoding
contains a NUL byte break the round trip (see the counterexample), so the
NUL-free restriction below is necessary. -/
theorem grf_builder_reader_roundtrip
    (deflate : List Nat → List Nat) (inflate : List Nat → Option (List Nat))
    (files : List (String × List Nat))
    (hinv : ∀ b : List Nat, inflate (deflate b) = some b)
    (hne : files ≠ [])
    (hnodup : (files.map Prod.fst).Nodup)
    (henc : ∀ pb ∈ files, ∃ b, serialize_to_win1252 pb.1 = Except.ok b)
    (hnz : ∀ pb ∈ files, (0 : Nat) ∉ win1252Bytes pb.1)
    (hsz : ∀ pb ∈ files, pb.2.length < 2 ^ 32
      ∧ (deflate pb.2).length < 2 ^ 32)
    (hcnt : files.length + 7 < 2 ^ 31)
    (hsum : comSum deflate files < 2 ^ 32)
    (htab : (tableBytesOf deflate files).length < 2 ^ 32)
    (hct : (deflate (tableBytesOf deflate files)).length < 2 ^ 32)
    (hctne : deflate (tableBytesOf deflate files) ≠ []) :
    ∃ out archive,
      grfBuildArchive deflate files = .ok out ∧
      grfOpen inflate out = .ok archive ∧
      grfFileCount archive = files.length ∧
      (∀ pb ∈ files, ∃ e, assocLookup pb.1 archive.entries = some e
        ∧ e.size = pb.2.length) ∧
      (∀ pb ∈ files, grfReadFileContent inflate archive pb.1 = .ok pb.2) := by
  have hlay : (grfOutBytes deflate files).drop GRF_HEADER_SIZE
      = (files.map (fun pb => deflate pb.2)).flatten
        ++ (u32le (deflate (tableBytesOf deflate files)).length
          ++ u32le (tableBytesOf deflate files).length
          ++ deflate (tableBytesOf deflate files)) := by
    rw [grfOutBytes,
      ← grfHeaderBytes_length ((2 <<< 8) ||| 0)
        (comSum deflate files % 2 ^ 32) (files.length + 7),
      List.drop_left]
  have hread := finalEntries_read deflate files (grfOutBytes deflate files)
    GRF_HEADER_SIZE _ hnodup hlay
  refine ⟨grfOutBytes deflate files,
    ⟨grfOutBytes deflate files,
      ⟨GRF_FIXED_KEY, comSum deflate files % 2 ^ 32, 0, files.length, 2, 0⟩,
      finalEntries deflate GRF_HEADER_SIZE files⟩,
    grfBuildArchive_eq deflate files hnodup hsz henc hcnt htab hct,
    grfOpen_grfOutBytes deflate inflate files (hinv _) hne hnodup henc hnz
      hsz hcnt hsum htab hct hctne,
    rfl, ?_, ?_⟩
  · intro pb hpb
    obtain ⟨o, ho1, _⟩ := hread pb hpb
    exact ⟨_, ho1, rfl⟩
  · intro pb hpb
    obtain ⟨o, ho1, ho2⟩ := hread pb hpb
    by_cases hz : pb.2.length = 0
    · have hnil : pb.2 = [] := List.eq_nil_of_length_eq_zero hz
      simp [grfReadFileContent, ho1, hz, hnil]
    · simp [grfReadFileContent, ho1, hz, ho2, hinv pb.2]

set_option maxRecDepth 1000000 in
/-- C5 counterexample: the path `a` followed by a NUL character is
Windows-1252-encodable (its encoding is the two bytes `97, 0`), but
building a one-file v2.0 archive under it and reading the same path back
fails with `EntryNotFound`: the NUL inside the serialized path truncates
the parsed table key to `a`. -/
theorem grf_roundtrip_fails_on_nul_path :
    serialize_to_win1252 nulPath = .ok [97, 0]
    ∧ (grfBuildArchive deflId [(nulPath, [7])] >>= fun out =>
        grfOpen inflId out >>= fun a =>
          grfReadFileContent inflId a nulPath)
      = .error .entryNotFound := by
  constructor
  · decide
  · decide

set_option maxRecDepth 1000000 in
/-- Witness for the amended C5 theorem: identity codecs and the two files
`a` mapped to bytes `1, 2, 3` and `b` mapped to no bytes. -/
theorem grf_builder_reader_roundtrip_witness :
    ([("a", [1, 2, 3]), ("b", [])] ≠ ([] : List (String × List Nat)))
    ∧ ((["a", "b"] : List String).Nodup)
    ∧ (∃ out archive,
        grfBuildArchive deflId [("a", [1, 2, 3]), ("b", [])] = .ok out ∧
        grfOpen inflId out = .ok archive ∧
        grfFileCount archive = 2 ∧
        (∀ pb ∈ [("a", [1, 2, 3]), ("b", ([] : List Nat))],
          ∃ e, assocLookup pb.1 archive.entries = some e
            ∧ e.size = pb.2.length) ∧
        (∀ pb ∈ [("a", [1, 2, 3]), ("b", ([] : List Nat))],
          grfReadFileContent inflId archive pb.1 = .ok pb.2)) := by
  refine ⟨by decide, by decide, ?_⟩
  have hmain := grf_builder_reader_roundtrip deflId inflId
    [("a", [1, 2, 3]), ("b", [])]
    (fun b => rfl) (by decide) (by decide)
    (by
      intro pb hpb
      rcases List.mem_cons.mp hpb with h | h
      · exact ⟨[97], by subst h; decide⟩
      · rcases List.mem_cons.mp h with h2 | h2
        · exact ⟨[98], by subst h2; decide⟩
        · simp at h2)
    (by decide) (by decide) (by decide) (by decide) (by decide) (by decide)
    (by decide)
  simpa using hmain

/-- C10: opening a v1.x GRF whose 46-byte header parses with true file
count `N` returns an empty entry map while `file_count()` still reports
`N` — `open` reads exactly `GRF_HEADER_SIZE` bytes into the header buffer,
so the v1 table parser is fed the empty remainder of that buffer and the
`table_size == 0` branch yields no entries; every path lookup misses
(so in particular the table's last record is absent).  Independently, the
v1 record parser is bounded to `file_count - 1` records, so even where the
table is parsed at most `N - 1` of its `N` records could be collected. -/
theorem grf_v1_open_drops_entries (inflate : List Nat → Option (List Nat))
    (hdr body : List Nat) (h : GrfHeaderM) (N : Nat)
    (hlen : hdr.length = GRF_HEADER_SIZE)
    (hparse : parseGrfHeader hdr = some (h, []))
    (hmaj : h.version_major = 1)
    (hminlo : 1 ≤ h.version_minor) (hminhi : h.version_minor ≤ 3)
    (hcount : h.file_count = N) (hN : 2 ≤ N)
    (hrecords : (foldManyMN N parseGrfFileEntry101 body).1.length = N) :
    grfOpen inflate (hdr ++ body) = .ok ⟨hdr ++ body, h, []⟩
    ∧ grfFileCount ⟨hdr ++ body, h, []⟩ = N
    ∧ (∀ p, assocLookup p ([] : List (String × GrfFileEntryM)) = none)
    ∧ ∀ input,
        (foldManyMN (N - 1) parseGrfFileEntry101 input).1.length ≤ N - 1 := by
  have hge : GRF_HEADER_SIZE ≤ (hdr ++ body).length := by
    rw [List.length_append, hlen]
    omega
  have htake : (hdr ++ body).take GRF_HEADER_SIZE = hdr := by
    rw [← hlen, List.take_left]
  have hmaj2 : ¬(h.version_major = 2) := by simp [hmaj]
  have hminor : ¬(h.version_minor < 1 ∨ 3 < h.version_minor) := by omega
  refine ⟨?_, by simpa [grfFileCount] using hcount, fun p => rfl,
    fun input => foldManyMN_length_le (N - 1) parseGrfFileEntry101 input⟩
  simp only [grfOpen, if_pos hge, htake, hparse, if_neg hmaj2, if_pos hmaj,
    if_neg hminor, List.length_nil, reduceIte]

set_option maxRecDepth 1000000 in
/-- Witness for the C10 theorem at a concrete v1.2 archive declaring a
true file count of 2 (obfuscated header field 9) over a table of 2
well-formed records. -/
theorem grf_v1_open_drops_entries_witness :
    parseGrfHeader (grfHeaderBytes ((1 <<< 8) ||| 2) 0 9)
      = some (⟨GRF_FIXED_KEY, 0, 0, 2, 1, 2⟩, [])
    ∧ (foldManyMN 2 parseGrfFileEntry101 (v1Rec ++ v1Rec)).1.length = 2
    ∧ (grfOpen inflId
          (grfHeaderBytes ((1 <<< 8) ||| 2) 0 9 ++ (v1Rec ++ v1Rec))
        = .ok ⟨grfHeaderBytes ((1 <<< 8) ||| 2) 0 9 ++ (v1Rec ++ v1Rec),
            ⟨GRF_FIXED_KEY, 0, 0, 2, 1, 2⟩, []⟩
      ∧ grfFileCount ⟨grfHeaderBytes ((1 <<< 8) ||| 2) 0 9
          ++ (v1Rec ++ v1Rec), ⟨GRF_FIXED_KEY, 0, 0, 2, 1, 2⟩, []⟩ = 2
      ∧ (∀ p, assocLookup p ([] : List (String × GrfFileEntryM)) = none)
      ∧ ∀ input, (foldManyMN (2 - 1) parseGrfFileEntry101 input).1.length
          ≤ 2 - 1) :=
  ⟨by decide, by decide,
    grf_v1_open_drops_entries inflId (grfHeaderBytes ((1 <<< 8) ||| 2) 0 9)
      (v1Rec ++ v1Rec) ⟨GRF_FIXED_KEY, 0, 0, 2, 1, 2⟩ 2
      (by decide) (by decide) (by decide) (by decide) (by decide)
      (by decide) (by decide) (by decide)⟩

end Spec2Proof
